import Mathlib

/-!
Verification development for the layout/grouping engine of a collaboratively
edited notebook document (block groups, tabs, structural operations).

The editor component (`v2Editor/index.tsx`) dispatches to the layout engine of
`@briefer/editor`; the engine operations themselves are not part of the given
source slice, so they are modelled from the specification (each such
definition carries a `Modelled from the spec:` doc comment).  Handler-level
logic that is present in the source (block-type dispatch, the hide-all-tabs
loop, transaction wrapping) is translated directly from it.

Identifiers are modelled as natural numbers; fresh identifiers are drawn from
a monotone counter `nextId` held in the editor state.
-/

namespace Briefer

/-- The closed set of block types (data model §3 and `BlockType` usages in the
source). -/
inductive BlockType where
  | richText
  | sql
  | python
  | visualization
  | input
  | dropdownInput
  | dateInput
  | fileUpload
  | dashboardHeader
  | writeback
  | pivotTable
deriving DecidableEq, Repr

/-- A block: type tag plus an abstract type-specific payload. -/
structure Block where
  type : BlockType
  payload : Nat
deriving DecidableEq, Repr

/-- Construction parameters for a new block (the `blockSpec` of §4.1). -/
structure BlockSpec where
  type : BlockType
  payload : Nat
deriving DecidableEq, Repr

/-- Modelled from the spec: building a block from its construction spec. -/
def mkBlock (bs : BlockSpec) : Block :=
  ⟨bs.type, bs.payload⟩

/-- A tab reference inside a block group: the referenced block identifier plus
the per-tab flags (current-tab marker, hidden-in-published flag). -/
structure Tab where
  blockId : Nat
  isCurrent : Bool
  isHiddenInPublished : Bool
deriving DecidableEq, Repr

/-- A block group: stable identifier plus its ordered sequence of tabs. -/
structure BlockGroup where
  id : Nat
  tabs : List Tab
deriving DecidableEq, Repr

/-- The editor state: the Layout Store (ordered sequence of block groups), the
Block Store (association list from block identifier to block data) and the
fresh-identifier counter. -/
structure EditorState where
  layout : List BlockGroup
  blocks : List (Nat × Block)
  nextId : Nat
deriving DecidableEq, Repr

/-- Index of the first element satisfying `p` (clean recursion, used by the
modelled operations to locate tabs and groups). -/
def listFindIdx {α : Type} (p : α → Bool) : List α → Option Nat
  | [] => none
  | a :: as => if p a then some 0 else (listFindIdx p as).map (· + 1)

/-- Block identifiers of a group's tabs, in order. -/
def tabIds (g : BlockGroup) : List Nat :=
  g.tabs.map Tab.blockId

/-- All block identifiers appearing in tab slots across the layout. -/
def allBlockIds (l : List BlockGroup) : List Nat :=
  l.flatMap tabIds

/-- Group identifiers of the layout sequence, in order. -/
def groupIds (l : List BlockGroup) : List Nat :=
  l.map BlockGroup.id

/-- Modelled from the spec: the read-side query `getBlockGroup`. -/
def getBlockGroup (l : List BlockGroup) (gid : Nat) : Option BlockGroup :=
  l.find? (fun g => g.id == gid)

/-- The group containing a given block identifier, if any. -/
def groupOfBlock (l : List BlockGroup) (bid : Nat) : Option BlockGroup :=
  l.find? (fun g => g.tabs.any (fun t => t.blockId == bid))

/-- Apply `f` to the group(s) with identifier `gid`, leaving others alone. -/
def updateGroup (l : List BlockGroup) (gid : Nat) (f : BlockGroup → BlockGroup) :
    List BlockGroup :=
  l.map (fun g => if g.id == gid then f g else g)

/-- Remove groups that have no tabs left (spec invariant: a zero-tab group is
logically deleted and must leave the layout). -/
def dropEmptyGroups (l : List BlockGroup) : List BlockGroup :=
  l.filter (fun g => !g.tabs.isEmpty)

/-- Clear the current-tab marker on every tab. -/
def clearCurrent (tabs : List Tab) : List Tab :=
  tabs.map (fun t => { t with isCurrent := false })

/-- Make the tab at index `j` the unique current tab. -/
def setCurrentIdx : List Tab → Nat → List Tab
  | [], _ => []
  | t :: ts, 0 => { t with isCurrent := true } :: clearCurrent ts
  | t :: ts, j + 1 => { t with isCurrent := false } :: setCurrentIdx ts j

/-- Insert tab `t` at position `j` as the new unique current tab. -/
def insertTabCurrent (tabs : List Tab) (j : Nat) (t : Tab) : List Tab :=
  (clearCurrent tabs).insertIdx j { t with isCurrent := true }

/-- Modelled from the spec: removal of the tab referencing `bid` with the
deterministic currency fall (§3): if the removed tab was current, currency
passes to the tab that was immediately before it, else to the new first
tab. -/
def removeTabFall (tabs : List Tab) (bid : Nat) : List Tab :=
  match listFindIdx (fun t => t.blockId == bid) tabs with
  | none => tabs
  | some i =>
    let wasCurrent := ((tabs[i]?).map Tab.isCurrent).getD false
    let rest := tabs.eraseIdx i
    if wasCurrent && !rest.isEmpty then setCurrentIdx rest (i - 1) else rest

/-- Position of a new tab relative to its anchor. -/
inductive TabPos where
  | before
  | after
deriving DecidableEq, Repr

/-- Side of a tab drop during tab reordering. -/
inductive TabSide where
  | left
  | right
deriving DecidableEq, Repr

/-- Modelled from the spec: `addBlockGroup(index, blockSpec)` (§4.1) — fresh
block wrapped in a new single-tab group inserted at `index` clamped to the
layout length; returns the new block identifier. -/
def addBlockGroup (s : EditorState) (bs : BlockSpec) (index : Nat) :
    Nat × EditorState :=
  let bid := s.nextId
  let gid := s.nextId + 1
  let g : BlockGroup := ⟨gid, [⟨bid, true, false⟩]⟩
  (bid,
    { layout := s.layout.insertIdx (min index s.layout.length) g
      blocks := (bid, mkBlock bs) :: s.blocks
      nextId := s.nextId + 2 })

/-- Insert a fresh tab for block `nid` beside the anchor tab of a group,
making it current (the group-local step of `addGroupedBlock`); leaves the
group alone when the anchor is absent. -/
def insertAnchoredTab (anchor nid : Nat) (pos : TabPos) (h : BlockGroup) :
    BlockGroup :=
  match listFindIdx (fun t => t.blockId == anchor) h.tabs with
  | none => h
  | some i =>
    ⟨h.id, insertTabCurrent h.tabs
      (match pos with | .before => i | .after => i + 1) ⟨nid, true, false⟩⟩

/-- Modelled from the spec: `addGroupedBlock(groupId, anchorBlockId,
blockSpec, position)` (§4.1) — new tab inserted before/after the anchor tab
of an existing group, becoming the group's current tab; silent no-op if the
anchor is not found in the group. -/
def addGroupedBlock (s : EditorState) (gid anchor : Nat) (bs : BlockSpec)
    (pos : TabPos) : EditorState :=
  match getBlockGroup s.layout gid with
  | none => s
  | some g =>
    match listFindIdx (fun t => t.blockId == anchor) g.tabs with
    | none => s
    | some _ =>
      { layout := updateGroup s.layout gid (insertAnchoredTab anchor s.nextId pos)
        blocks := (s.nextId, mkBlock bs) :: s.blocks
        nextId := s.nextId + 1 }

/-- Modelled from the spec: `addBlockGroupAfterBlock(blockSpec, afterBlockId)`
(§4.1) — single-tab containing group grows by a sibling group inserted just
after it; multi-tab containing group grows by a tab after the anchor. -/
def addBlockGroupAfterBlock (s : EditorState) (bs : BlockSpec)
    (afterBid : Nat) : Nat × EditorState :=
  match listFindIdx (fun g => g.tabs.any (fun t => t.blockId == afterBid)) s.layout with
  | none => (s.nextId, s)
  | some gi =>
    match s.layout[gi]? with
    | none => (s.nextId, s)
    | some g =>
      if g.tabs.length == 1 then
        let bid := s.nextId
        let ngid := s.nextId + 1
        (bid,
          { layout := s.layout.insertIdx (gi + 1) ⟨ngid, [⟨bid, true, false⟩]⟩
            blocks := (bid, mkBlock bs) :: s.blocks
            nextId := s.nextId + 2 })
      else (s.nextId, addGroupedBlock s g.id afterBid bs .after)

/-- Modelled from the spec: `groupBlocks(sourceGroupId, sourceBlockId,
targetGroupId)` (§4.2) — moves the tab out of its source group (with currency
fall) into the target group as its new current tab; an emptied source group
leaves the layout; no-op on equal identifiers or missing references. -/
def groupBlocks (s : EditorState) (srcGid srcBid tgtGid : Nat) : EditorState :=
  if srcGid == tgtGid then s
  else
    match getBlockGroup s.layout srcGid, getBlockGroup s.layout tgtGid with
    | some src, some _ =>
      match src.tabs.find? (fun t => t.blockId == srcBid) with
      | none => s
      | some t =>
        let l1 := updateGroup s.layout srcGid
          (fun h => ⟨h.id, removeTabFall h.tabs srcBid⟩)
        let l2 := updateGroup l1 tgtGid
          (fun h => ⟨h.id, insertTabCurrent h.tabs h.tabs.length t⟩)
        { s with layout := dropEmptyGroups l2 }
    | _, _ => s

/-- Modelled from the spec: `groupBlockGroups(sourceGroupId, targetGroupId)`
(§4.2) — all tabs of the source group are appended after the target's tabs in
their relative order (currency markers of the source are cleared so the
target keeps its unique current tab); the emptied source group leaves the
layout; no-op on equal identifiers. -/
def groupBlockGroups (s : EditorState) (srcGid tgtGid : Nat) : EditorState :=
  if srcGid == tgtGid then s
  else
    match getBlockGroup s.layout srcGid, getBlockGroup s.layout tgtGid with
    | some src, some _ =>
      let l1 := s.layout.filter (fun g => g.id != srcGid)
      let l2 := updateGroup l1 tgtGid
        (fun h => ⟨h.id, h.tabs ++ clearCurrent src.tabs⟩)
      { s with layout := l2 }
    | _, _ => s

/-- Modelled from the spec: the list-move underlying `updateOrder` (§4.3) —
remove the group from its current position and reinsert at the target index
interpreted against the sequence after removal (clamped). -/
def listMoveGroup (l : List BlockGroup) (gid : Nat) (i : Nat) :
    List BlockGroup :=
  match l.find? (fun g => g.id == gid) with
  | none => l
  | some g =>
    let rest := l.eraseP (fun h => h.id == gid)
    rest.insertIdx (min i rest.length) g

/-- Modelled from the spec: `updateOrder(groupId, targetIndex)` (§4.3). -/
def updateOrder (s : EditorState) (gid tgtIdx : Nat) : EditorState :=
  { s with layout := listMoveGroup s.layout gid tgtIdx }

/-- Modelled from the spec: `ungroupTab(sourceGroupId, blockId, targetIndex)`
(§4.2) — extracts a tab from a multi-tab group into a new standalone group at
`targetIndex`; for a single-tab source this degenerates to repositioning the
group itself. -/
def ungroupTab (s : EditorState) (srcGid bid tgtIdx : Nat) : EditorState :=
  match getBlockGroup s.layout srcGid with
  | none => s
  | some src =>
    match src.tabs.find? (fun t => t.blockId == bid) with
    | none => s
    | some t =>
      if src.tabs.length == 1 then
        { s with layout := listMoveGroup s.layout srcGid tgtIdx }
      else
        let l1 := dropEmptyGroups (updateGroup s.layout srcGid
          (fun h => ⟨h.id, removeTabFall h.tabs bid⟩))
        { s with
          layout := l1.insertIdx (min tgtIdx l1.length)
            ⟨s.nextId, [{ t with isCurrent := true }]⟩
          nextId := s.nextId + 1 }

/-- Modelled from the spec: `reorderTab(sourceGroupId, blockId, targetBlockId,
side)` (§4.3) — removes the tab from its source group (with currency fall) and
inserts it immediately before (left) or after (right) the target tab in the
group containing the target; an emptied source group leaves the layout. -/
def reorderTab (s : EditorState) (srcGid bid tgtBid : Nat) (side : TabSide) :
    EditorState :=
  if bid == tgtBid then s
  else
    match getBlockGroup s.layout srcGid, groupOfBlock s.layout tgtBid with
    | some src, some tgt =>
      match src.tabs.find? (fun t => t.blockId == bid) with
      | none => s
      | some t =>
        let l1 := updateGroup s.layout srcGid
          (fun h => ⟨h.id, removeTabFall h.tabs bid⟩)
        let l2 := updateGroup l1 tgt.id (fun h =>
          match listFindIdx (fun u => u.blockId == tgtBid) h.tabs with
          | none => h
          | some j =>
            let k := match side with | .left => j | .right => j + 1
            ⟨h.id, h.tabs.insertIdx k { t with isCurrent := false }⟩)
        { s with layout := dropEmptyGroups l2 }
    | _, _ => s

/-- Result of the two-phase removal operations (§4.4): success, or a
dashboard conflict carrying the conflicting block references. -/
inductive RemoveResult where
  | success
  | dashboardConflict (conflicts : List Nat)
deriving DecidableEq, Repr

/-- Modelled from the spec: the Conflict Checker query
`findConflicts(blockIds)` against the external dashboard-reference
collaborator, represented by the predicate `dash`. -/
def findConflicts (dash : Nat → Bool) (bids : List Nat) : List Nat :=
  bids.filter dash

/-- Remove the entries for the given block identifiers from the Block
Store. -/
def deleteBlocks (st : List (Nat × Block)) (bids : List Nat) :
    List (Nat × Block) :=
  st.filter (fun p => !bids.contains p.1)

/-- Modelled from the spec: `removeBlockGroup(docHandle, groupId, force)`
(§4.4) — with `force = false` the Conflict Checker is consulted first and a
dashboard conflict aborts the operation with no mutation; otherwise the group
and its blocks are removed. -/
def removeBlockGroup (dash : Nat → Bool) (s : EditorState) (gid : Nat)
    (force : Bool) : RemoveResult × EditorState :=
  match getBlockGroup s.layout gid with
  | none => (.success, s)
  | some g =>
    if !force && !(findConflicts dash (tabIds g)).isEmpty then
      (.dashboardConflict (findConflicts dash (tabIds g)), s)
    else
      (.success,
        { s with
          layout := s.layout.filter (fun h => h.id != gid)
          blocks := deleteBlocks s.blocks (tabIds g) })

/-- Modelled from the spec: `removeBlock(docHandle, groupId, blockId, force)`
(§4.4) — the same two-phase contract scoped to a single tab; removing the last
tab cascades into removing the group. -/
def removeBlock (dash : Nat → Bool) (s : EditorState) (gid bid : Nat)
    (force : Bool) : RemoveResult × EditorState :=
  match getBlockGroup s.layout gid with
  | none => (.success, s)
  | some g =>
    match g.tabs.find? (fun t => t.blockId == bid) with
    | none => (.success, s)
    | some _ =>
      if !force && !(findConflicts dash [bid]).isEmpty then
        (.dashboardConflict (findConflicts dash [bid]), s)
      else
        (.success,
          { s with
            layout := dropEmptyGroups (updateGroup s.layout gid
              (fun h => ⟨h.id, removeTabFall h.tabs bid⟩))
            blocks := deleteBlocks s.blocks [bid] })

/-- Copy a list of tabs under fresh consecutive block identifiers starting at
`n`, keeping all flags. -/
def copyTabsFrom : List Tab → Nat → List Tab
  | [], _ => []
  | t :: ts, n => { t with blockId := n } :: copyTabsFrom ts (n + 1)

/-- Look up a block in the Block Store. -/
def storeGet (st : List (Nat × Block)) (bid : Nat) : Option Block :=
  (st.find? (fun p => p.1 == bid)).map Prod.snd

/-- Store entries for the copies: the k-th tab's block data under fresh
identifier `n + k` (tabs whose block data is absent contribute nothing). -/
def copyBlocksFrom (st : List (Nat × Block)) : List Tab → Nat →
    List (Nat × Block)
  | [], _ => []
  | t :: ts, n =>
    (match storeGet st t.blockId with
     | some b => [(n, b)]
     | none => []) ++ copyBlocksFrom st ts (n + 1)

/-- Modelled from the spec: `duplicateBlockGroup(groupId)` (§4.5) — deep-copy
of every tab's block under fresh identifiers with identical payloads, wrapped
in a new group inserted immediately after the source group. -/
def duplicateBlockGroup (s : EditorState) (gid : Nat) : EditorState :=
  match listFindIdx (fun g => g.id == gid) s.layout with
  | none => s
  | some i =>
    match s.layout[i]? with
    | none => s
    | some g =>
      let ngid := s.nextId + g.tabs.length
      { layout := s.layout.insertIdx (i + 1) ⟨ngid, copyTabsFrom g.tabs s.nextId⟩
        blocks := copyBlocksFrom s.blocks g.tabs s.nextId ++ s.blocks
        nextId := s.nextId + g.tabs.length + 1 }

/-- Modelled from the spec: `duplicateTab(groupId, blockId)` (§4.5) — deep
copy of a single block inserted as a new tab immediately after the source tab
within the same group. -/
def duplicateTab (s : EditorState) (gid bid : Nat) : EditorState :=
  match getBlockGroup s.layout gid with
  | none => s
  | some g =>
    match listFindIdx (fun t => t.blockId == bid) g.tabs with
    | none => s
    | some _ =>
      match storeGet s.blocks bid with
      | none => s
      | some b =>
        { layout := updateGroup s.layout gid (fun h =>
            match listFindIdx (fun t => t.blockId == bid) h.tabs with
            | none => h
            | some j =>
              ⟨h.id, h.tabs.insertIdx (j + 1)
                ⟨s.nextId, false, (h.tabs[j]?.map Tab.isHiddenInPublished).getD false⟩⟩)
          blocks := (s.nextId, b) :: s.blocks
          nextId := s.nextId + 1 }

/-- Flip the hidden-in-published flag of the tab referencing `bid`. -/
def toggleHiddenTab (tabs : List Tab) (bid : Nat) : List Tab :=
  tabs.map (fun t =>
    if t.blockId == bid then { t with isHiddenInPublished := !t.isHiddenInPublished }
    else t)

/-- Modelled from the spec: `toggleIsBlockHiddenInPublished(groupId, blockId)`
(§4.6) — flips the hidden-in-published flag on one tab; currency untouched. -/
def toggleIsBlockHiddenInPublished (s : EditorState) (gid bid : Nat) :
    EditorState :=
  { s with layout := updateGroup s.layout gid (fun h => ⟨h.id, toggleHiddenTab h.tabs bid⟩) }

/-- Modelled from the spec: `switchActiveTab(groupId, blockId)` (§4.6) — the
tab referencing `blockId` becomes the unique holder of the current-tab
marker; silent no-op when it is absent. -/
def switchActiveTab (s : EditorState) (gid bid : Nat) : EditorState :=
  { s with layout := updateGroup s.layout gid (fun h =>
      match listFindIdx (fun t => t.blockId == bid) h.tabs with
      | none => h
      | some i => ⟨h.id, setCurrentIdx h.tabs i⟩) }

/-- Modelled from the spec: `getCurrentTabId(groupId, isPublishedView)`
(§4.6) — in the published view the first non-hidden tab counts as current;
otherwise the holder of the persisted current-tab marker. -/
def getCurrentTabId (l : List BlockGroup) (gid : Nat) (isPublishedView : Bool) :
    Option Nat :=
  match getBlockGroup l gid with
  | none => none
  | some g =>
    if isPublishedView then
      (g.tabs.find? (fun t => !t.isHiddenInPublished)).map Tab.blockId
    else
      (g.tabs.find? (fun t => t.isCurrent)).map Tab.blockId

/-- Modelled from the spec: `getTabsFromBlockGroup` restricted to the data the
layout engine owns (the tab references themselves). -/
def getTabsFromBlockGroup (g : BlockGroup) : List Tab :=
  g.tabs

/-- Modelled from the spec: the pure drop-eligibility predicate
`checkCanDropBlockGroup` (§4.2) — would moving the group to the target index
produce a net structural change (rejecting a drop of a group onto its own
current position). -/
def checkCanDropBlockGroup (l : List BlockGroup) (gid : Nat) (index : Nat) :
    Bool :=
  (l.find? (fun g => g.id == gid)).isSome &&
    decide (listMoveGroup l gid index ≠ l)

/-- Modelled from the spec: the pure drop-eligibility predicate
`checkCanDropBlock` (§4.2) — dropping a tab of a multi-tab group into a
dropzone always changes the structure; for a single-tab group it degenerates
to repositioning the group itself. -/
def checkCanDropBlock (l : List BlockGroup) (gid : Nat) (index : Nat) : Bool :=
  match l.find? (fun g => g.id == gid) with
  | none => false
  | some g =>
    if g.tabs.length == 1 then checkCanDropBlockGroup l gid index else true

/-- Modelled from the spec: the pure pre-check `canReorderTab` (§4.3) —
rejects no-op reorders where source and target tab are identical or already
adjacent on the requested side. -/
def canReorderTab (l : List BlockGroup) (srcGid bid tgtBid : Nat)
    (side : TabSide) : Bool :=
  if bid == tgtBid then false
  else
    match getBlockGroup l srcGid, groupOfBlock l tgtBid with
    | some src, some tgt =>
      (src.tabs.any (fun t => t.blockId == bid)) &&
        (match listFindIdx (fun t => t.blockId == bid) tgt.tabs,
               listFindIdx (fun t => t.blockId == tgtBid) tgt.tabs with
         | some i, some j =>
           match side with
           | .left => !(i + 1 == j)
           | .right => !(j + 1 == i)
         | _, _ => true)
    | _, _ => false

/-- The drag element kinds of the editor (`ElementType` in the source). -/
inductive ElementType where
  | block
  | blockGroup
deriving DecidableEq, Repr

/-- The `onCheckCanDrop` dispatch of the source editor: per drag element type,
delegate to the corresponding pure predicate; an unknown type cannot drop. -/
def onCheckCanDrop (l : List BlockGroup) (gid : Nat) (index : Nat)
    (ty : Option ElementType) : Bool :=
  match ty with
  | some .block => checkCanDropBlock l gid index
  | some .blockGroup => checkCanDropBlockGroup l gid index
  | none => false

/-- The `onCheckCanReorderTab` dispatch of the source editor. -/
def onCheckCanReorderTab (l : List BlockGroup) (srcGid bid tgtBid : Nat)
    (side : TabSide) : Bool :=
  canReorderTab l srcGid bid tgtBid side

/-- The `onDropItem` dispatch of the source editor: a dropped block group is
reordered, a dropped tab is ungrouped to the target index; an unknown element
type leaves the state alone. -/
def onDropItem (s : EditorState) (gid bid tgtIdx : Nat)
    (ty : Option ElementType) : EditorState :=
  match ty with
  | some .blockGroup => updateOrder s gid tgtIdx
  | some .block => ungroupTab s gid bid tgtIdx
  | none => s

/-- The `onGroup` dispatch of the source editor. -/
def onGroup (s : EditorState) (gid bid tgtGid : Nat)
    (ty : Option ElementType) : EditorState :=
  match ty with
  | some .block => groupBlocks s gid bid tgtGid
  | some .blockGroup => groupBlockGroups s gid tgtGid
  | none => s

/-- The `onAddBlock` handler of the source editor: SQL and visualization
blocks are created with their specific construction parameters, a
dashboard-header request falls through the switch without creating anything,
and every other type is created with its plain parameters. -/
def onAddBlock (s : EditorState) (ty : BlockType) (index : Nat) : EditorState :=
  match ty with
  | .sql => (addBlockGroup s ⟨.sql, 1⟩ index).2
  | .visualization => (addBlockGroup s ⟨.visualization, 2⟩ index).2
  | .dashboardHeader => s
  | _ => (addBlockGroup s ⟨ty, 0⟩ index).2

/-- The `onAddGroupedBlock` handler of the source editor (same switch shape as
`onAddBlock`, delegating to `addGroupedBlock`). -/
def onAddGroupedBlock (s : EditorState) (ty : BlockType)
    (gid bid : Nat) (pos : TabPos) : EditorState :=
  match ty with
  | .sql => addGroupedBlock s gid bid ⟨.sql, 1⟩ pos
  | .visualization => addGroupedBlock s gid bid ⟨.visualization, 2⟩ pos
  | .dashboardHeader => s
  | _ => addGroupedBlock s gid bid ⟨ty, 0⟩ pos

/-- The `onHideAllTabs` handler of the source editor: look up the group, take
a snapshot of its tabs, and toggle the hidden-in-published flag of every tab
that is not already hidden. -/
def onHideAllTabs (s : EditorState) (gid : Nat) : EditorState :=
  match getBlockGroup s.layout gid with
  | none => s
  | some bg =>
    (getTabsFromBlockGroup bg).foldl
      (fun acc t =>
        if !t.isHiddenInPublished then
          toggleIsBlockHiddenInPublished acc gid t.blockId
        else acc)
      s

/-- One operation of the structural operation set (§4). -/
inductive Op where
  | addBlockGroup (bs : BlockSpec) (index : Nat)
  | addGroupedBlock (gid anchor : Nat) (bs : BlockSpec) (pos : TabPos)
  | addBlockGroupAfterBlock (bs : BlockSpec) (afterBid : Nat)
  | groupBlocks (srcGid srcBid tgtGid : Nat)
  | groupBlockGroups (srcGid tgtGid : Nat)
  | ungroupTab (srcGid bid tgtIdx : Nat)
  | updateOrder (gid tgtIdx : Nat)
  | reorderTab (srcGid bid tgtBid : Nat) (side : TabSide)
  | removeBlockGroup (gid : Nat) (force : Bool)
  | removeBlock (gid bid : Nat) (force : Bool)
  | duplicateBlockGroup (gid : Nat)
  | duplicateTab (gid bid : Nat)
  | toggleHidden (gid bid : Nat)
  | switchActiveTab (gid bid : Nat)
deriving DecidableEq, Repr

/-- Apply one structural operation to the editor state (removal operations
consult the dashboard-reference predicate `dash`). -/
def applyOp (dash : Nat → Bool) : Op → EditorState → EditorState
  | .addBlockGroup bs index, s => (addBlockGroup s bs index).2
  | .addGroupedBlock gid anchor bs pos, s => addGroupedBlock s gid anchor bs pos
  | .addBlockGroupAfterBlock bs afterBid, s =>
    (addBlockGroupAfterBlock s bs afterBid).2
  | .groupBlocks a b c, s => groupBlocks s a b c
  | .groupBlockGroups a b, s => groupBlockGroups s a b
  | .ungroupTab a b c, s => ungroupTab s a b c
  | .updateOrder a b, s => updateOrder s a b
  | .reorderTab a b c side, s => reorderTab s a b c side
  | .removeBlockGroup gid force, s => (removeBlockGroup dash s gid force).2
  | .removeBlock gid bid force, s => (removeBlock dash s gid bid force).2
  | .duplicateBlockGroup gid, s => duplicateBlockGroup s gid
  | .duplicateTab gid bid, s => duplicateTab s gid bid
  | .toggleHidden gid bid, s => toggleIsBlockHiddenInPublished s gid bid
  | .switchActiveTab gid bid, s => switchActiveTab s gid bid

/-- Apply a sequence of structural operations from left to right. -/
def applyOps (dash : Nat → Bool) (ops : List Op) (s : EditorState) :
    EditorState :=
  ops.foldl (fun st op => applyOp dash op st) s

/-- The operations quantified over by the membership invariant of §8:
`addBlockGroup`, `addGroupedBlock`, `removeBlock`, `removeBlockGroup`. -/
def isBasicStructOp : Op → Bool
  | .addBlockGroup _ _ => true
  | .addGroupedBlock _ _ _ _ => true
  | .removeBlock _ _ _ => true
  | .removeBlockGroup _ _ => true
  | _ => false

/-! ### Transaction structure of the editor handlers

Each mutating entry point of the editor component is abstracted to the
sequence of steps its body performs, recording which engine mutations run
inside a `yDoc.transact` boundary and which run bare.  This is a direct
transliteration of the handler bodies in the source file. -/

/-- The engine mutations invoked by the editor handlers. -/
inductive MutKind where
  | switchActiveTab
  | reorderTab
  | toggleHidden
  | addBlockGroupCall
  | addGroupedBlockCall
  | updateOrderOrUngroupTab
  | groupBlocksOrGroupBlockGroups
  | removeBlockGroupCall
  | removeBlockCall
  | duplicateBlockGroupCall
  | duplicateTabCall
  | addBlockGroupAfterBlockCall
deriving DecidableEq, Repr

/-- One step of a handler body: a transaction wrapping engine mutations, a
bare engine mutation outside any transaction, or a pure read. -/
inductive HandlerStep where
  | transact (body : List MutKind)
  | bareMutation (m : MutKind)
  | bareRead
deriving DecidableEq, Repr

/-- The mutating entry points of the editor component. -/
inductive EntryPoint where
  | onSwitchActiveTab
  | onReorderTab
  | onToggleIsBlockHiddenInPublished
  | onHideAllTabs
  | onAddBlock
  | onAddGroupedBlock
  | onDropItem
  | onGroup
  | onRemoveBlockGroup
  | onRemoveBlock
  | onDuplicateBlockGroup
  | onDuplicateBlock
  | onFileUploadBlockPythonUsage
  | onFileUploadBlockQueryUsage
deriving DecidableEq, Repr

/-- The step sequence of each handler body, transliterated from the source:
every handler wraps its engine mutation in `yDoc.transact` except
`onToggleIsBlockHiddenInPublished` (which looks up the group and toggles the
flag with no transaction) and the two file-upload usage callbacks (which call
`addBlockGroupAfterBlock` directly).  The two removal handlers hand the
document to the engine's two-phase removal, whose contract (§4.4) performs
its mutation transactionally. -/
def entrySteps : EntryPoint → List HandlerStep
  | .onSwitchActiveTab => [.transact [.switchActiveTab]]
  | .onReorderTab => [.transact [.reorderTab]]
  | .onToggleIsBlockHiddenInPublished => [.bareRead, .bareMutation .toggleHidden]
  | .onHideAllTabs => [.transact [.toggleHidden]]
  | .onAddBlock => [.transact [.addBlockGroupCall]]
  | .onAddGroupedBlock => [.transact [.addGroupedBlockCall]]
  | .onDropItem => [.transact [.updateOrderOrUngroupTab]]
  | .onGroup => [.transact [.groupBlocksOrGroupBlockGroups]]
  | .onRemoveBlockGroup => [.transact [.removeBlockGroupCall]]
  | .onRemoveBlock => [.transact [.removeBlockCall]]
  | .onDuplicateBlockGroup => [.transact [.duplicateBlockGroupCall]]
  | .onDuplicateBlock => [.transact [.duplicateTabCall]]
  | .onFileUploadBlockPythonUsage => [.bareMutation .addBlockGroupAfterBlockCall]
  | .onFileUploadBlockQueryUsage => [.bareMutation .addBlockGroupAfterBlockCall]

/-- The engine mutations a handler performs outside any transaction
boundary. -/
def bareMutations (steps : List HandlerStep) : List MutKind :=
  steps.foldr
    (fun st acc =>
      match st with
      | .bareMutation m => m :: acc
      | _ => acc)
    []

/-! ### Pre-check calls as state transformers

The drop-eligibility and reorder pre-checks are pure; to state their frame
property over arbitrary call sequences, each call is run as a state
transformer returning the (unchanged) state together with its boolean
answer. -/

/-- A single pre-check invocation. -/
inductive CheckCall where
  | dropCheck (gid index : Nat) (ty : Option ElementType)
  | reorderCheck (srcGid bid tgtBid : Nat) (side : TabSide)
deriving DecidableEq, Repr

/-- Run one pre-check against the state: the state component of the result is
the input state itself, because the predicates only read the layout. -/
def runCheck (c : CheckCall) (s : EditorState) : EditorState × Bool :=
  match c with
  | .dropCheck gid index ty => (s, onCheckCanDrop s.layout gid index ty)
  | .reorderCheck a b c side => (s, onCheckCanReorderTab s.layout a b c side)

/-- Run a whole sequence of pre-checks, threading the state through. -/
def runChecks (calls : List CheckCall) (s : EditorState) : EditorState :=
  calls.foldl (fun st c => (runCheck c st).1) s

/-- Set the hidden-in-published flag (the net per-tab effect of the
hide-all-tabs loop). -/
def setHiddenTrue (t : Tab) : Tab :=
  { t with isHiddenInPublished := true }

/-- The tab-level residue of the hide-all-tabs loop: fold the snapshot `ts`
over the group's tab list `cur`, toggling the tabs the snapshot records as
visible. -/
def hideFold (ts cur : List Tab) : List Tab :=
  ts.foldl
    (fun c t =>
      if !t.isHiddenInPublished then toggleHiddenTab c t.blockId else c)
    cur

/-- A small concrete editor state used by the witness theorems: group 10 with
tabs for blocks 1 (not current) and 2 (current), group 20 with the single tab
for block 3, a matching Block Store, and fresh counter 100. -/
def witState : EditorState :=
  ⟨[⟨10, [⟨1, false, false⟩, ⟨2, true, false⟩]⟩, ⟨20, [⟨3, true, false⟩]⟩],
   [(1, ⟨.sql, 5⟩), (2, ⟨.python, 6⟩), (3, ⟨.richText, 7⟩)], 100⟩

/-! ### Invariants -/

/-- A live block group is well formed when it is non-empty and exactly one of
its tabs carries the current-tab marker. -/
def gOK (g : BlockGroup) : Prop :=
  g.tabs ≠ [] ∧ g.tabs.countP (fun t => t.isCurrent) = 1

/-- Weak form of `gOK` for groups that may be about to be dropped: if any tabs
remain, exactly one is current. -/
def wgOK (g : BlockGroup) : Prop :=
  g.tabs ≠ [] → g.tabs.countP (fun t => t.isCurrent) = 1

/-- Every group of the layout is non-empty with a unique current tab. -/
def LOK (l : List BlockGroup) : Prop :=
  ∀ g ∈ l, gOK g

/-- Every group of the layout satisfies the weak form. -/
def wLOK (l : List BlockGroup) : Prop :=
  ∀ g ∈ l, wgOK g

instance (g : BlockGroup) : Decidable (gOK g) := by
  unfold gOK; infer_instance

instance (l : List BlockGroup) : Decidable (LOK l) := by
  unfold LOK; infer_instance

/-- Identifier discipline: block identifiers are globally distinct across tab
slots, group identifiers are distinct, and all identifiers (including those of
the Block Store) are below the fresh-identifier counter. -/
def IdsOK (s : EditorState) : Prop :=
  (allBlockIds s.layout).Nodup ∧
  (groupIds s.layout).Nodup ∧
  (∀ b ∈ allBlockIds s.layout, b < s.nextId) ∧
  (∀ gi ∈ groupIds s.layout, gi < s.nextId) ∧
  (∀ p ∈ s.blocks, p.1 < s.nextId)

instance (s : EditorState) : Decidable (IdsOK s) := by
  unfold IdsOK; infer_instance

/-! ### Basic lemmas about the tab-level helpers -/

theorem listFindIdx_lt_length {α : Type} (p : α → Bool) :
    ∀ {l : List α} {i : Nat}, listFindIdx p l = some i → i < l.length := by
  intro l
  induction l with
  | nil => intro i h; simp [listFindIdx] at h
  | cons a as ih =>
    intro i h
    by_cases hp : p a
    · simp [listFindIdx, hp] at h
      subst h
      simp
    · simp [listFindIdx, hp] at h
      obtain ⟨j, hj, rfl⟩ := h
      have := ih hj
      simpa using Nat.succ_lt_succ this

theorem listFindIdx_getElem {α : Type} (p : α → Bool) :
    ∀ {l : List α} {i : Nat}, listFindIdx p l = some i →
      ∃ a, l[i]? = some a ∧ p a = true := by
  intro l
  induction l with
  | nil => intro i h; simp [listFindIdx] at h
  | cons a as ih =>
    intro i h
    by_cases hp : p a
    · simp [listFindIdx, hp] at h
      subst h
      exact ⟨a, by simp, hp⟩
    · simp [listFindIdx, hp] at h
      obtain ⟨j, hj, rfl⟩ := h
      obtain ⟨b, hb, hpb⟩ := ih hj
      exact ⟨b, by simpa using hb, hpb⟩

theorem length_clearCurrent (ts : List Tab) :
    (clearCurrent ts).length = ts.length := by
  simp [clearCurrent]

theorem countP_clearCurrent (ts : List Tab) :
    (clearCurrent ts).countP (fun t => t.isCurrent) = 0 := by
  induction ts with
  | nil => rfl
  | cons t ts ih => simp [clearCurrent, List.countP_cons]

theorem length_setCurrentIdx : ∀ (ts : List Tab) (j : Nat),
    (setCurrentIdx ts j).length = ts.length := by
  intro ts
  induction ts with
  | nil => intro j; rfl
  | cons t ts ih =>
    intro j
    cases j with
    | zero => simp [setCurrentIdx, length_clearCurrent]
    | succ j => simp [setCurrentIdx, ih]

theorem countP_setCurrentIdx : ∀ (ts : List Tab) (j : Nat), j < ts.length →
    (setCurrentIdx ts j).countP (fun t => t.isCurrent) = 1 := by
  intro ts
  induction ts with
  | nil => intro j h; simp at h
  | cons t ts ih =>
    intro j h
    cases j with
    | zero => simp [setCurrentIdx, List.countP_cons, countP_clearCurrent]
    | succ j =>
      simp only [setCurrentIdx, List.countP_cons]
      have hj : j < ts.length := by simpa using Nat.lt_of_succ_lt_succ h
      simp [ih j hj]

theorem countP_eraseIdx (p : Tab → Bool) :
    ∀ (ts : List Tab) (i : Nat) (a : Tab), ts[i]? = some a →
      (ts.eraseIdx i).countP p + (if p a then 1 else 0) = ts.countP p := by
  intro ts
  induction ts with
  | nil => intro i a h; simp at h
  | cons t ts ih =>
    intro i a h
    cases i with
    | zero =>
      simp at h
      subst h
      simp [List.countP_cons, Nat.add_comm]
    | succ i =>
      simp at h
      have := ih i a h
      simp only [List.eraseIdx_cons_succ, List.countP_cons]
      omega

theorem countP_insertIdx (p : Tab → Bool) (ts : List Tab) (j : Nat)
    (t : Tab) (h : j ≤ ts.length) :
    (ts.insertIdx j t).countP p = ts.countP p + (if p t then 1 else 0) := by
  have hperm := List.perm_insertIdx t ts h
  rw [hperm.countP_eq]
  simp [List.countP_cons]

theorem countP_insertTabCurrent (ts : List Tab) (j : Nat) (t : Tab)
    (h : j ≤ ts.length) :
    (insertTabCurrent ts j t).countP (fun u => u.isCurrent) = 1 := by
  unfold insertTabCurrent
  rw [countP_insertIdx _ _ _ _ (by simpa [length_clearCurrent] using h)]
  simp [countP_clearCurrent]

theorem insertTabCurrent_length (ts : List Tab) (j : Nat) (t : Tab)
    (h : j ≤ ts.length) :
    (insertTabCurrent ts j t).length = ts.length + 1 := by
  unfold insertTabCurrent
  rw [List.length_insertIdx _ _ (by simpa [length_clearCurrent] using h)]
  simp [length_clearCurrent]

theorem insertTabCurrent_ne_nil (ts : List Tab) (j : Nat) (t : Tab)
    (h : j ≤ ts.length) : insertTabCurrent ts j t ≠ [] := by
  have := insertTabCurrent_length ts j t h
  intro hc
  rw [hc] at this
  simp at this

theorem removeTabFall_of_none (ts : List Tab) (bid : Nat)
    (hf : listFindIdx (fun t => t.blockId == bid) ts = none) :
    removeTabFall ts bid = ts := by
  unfold removeTabFall
  rw [hf]

theorem removeTabFall_of_cur (ts : List Tab) (bid : Nat) {i : Nat} {a : Tab}
    (hf : listFindIdx (fun t => t.blockId == bid) ts = some i)
    (ha : ts[i]? = some a) (hcur : a.isCurrent = true)
    (hne : ts.eraseIdx i ≠ []) :
    removeTabFall ts bid = setCurrentIdx (ts.eraseIdx i) (i - 1) := by
  unfold removeTabFall
  rw [hf]
  have hemp : (ts.eraseIdx i).isEmpty = false := by
    simp [List.isEmpty_iff, hne]
  simp [ha, hcur, hemp]

theorem removeTabFall_of_notcur (ts : List Tab) (bid : Nat) {i : Nat} {a : Tab}
    (hf : listFindIdx (fun t => t.blockId == bid) ts = some i)
    (ha : ts[i]? = some a) (hcur : a.isCurrent = false) :
    removeTabFall ts bid = ts.eraseIdx i := by
  unfold removeTabFall
  rw [hf]
  simp [ha, hcur]

theorem removeTabFall_of_cur_emptied (ts : List Tab) (bid : Nat) {i : Nat}
    {a : Tab} (hf : listFindIdx (fun t => t.blockId == bid) ts = some i)
    (ha : ts[i]? = some a) (hemp : ts.eraseIdx i = []) :
    removeTabFall ts bid = ts.eraseIdx i := by
  unfold removeTabFall
  rw [hf]
  simp [ha, hemp]

theorem length_eraseIdx_of_lt (ts : List Tab) (i : Nat) (h : i < ts.length) :
    (ts.eraseIdx i).length = ts.length - 1 := by
  simp [List.length_eraseIdx, h]

theorem countP_removeTabFall (ts : List Tab) (bid : Nat)
    (h1 : ts.countP (fun t => t.isCurrent) = 1)
    (h2 : removeTabFall ts bid ≠ []) :
    (removeTabFall ts bid).countP (fun t => t.isCurrent) = 1 := by
  cases hf : listFindIdx (fun t => t.blockId == bid) ts with
  | none => rw [removeTabFall_of_none ts bid hf]; exact h1
  | some i =>
    obtain ⟨a, ha, _⟩ := listFindIdx_getElem _ hf
    have hi := listFindIdx_lt_length _ hf
    have herase := countP_eraseIdx (fun t => t.isCurrent) ts i a ha
    by_cases hemp : ts.eraseIdx i = []
    · rw [removeTabFall_of_cur_emptied ts bid hf ha hemp] at h2
      exact absurd hemp h2
    · by_cases hcur : a.isCurrent
      · rw [removeTabFall_of_cur ts bid hf ha hcur hemp]
        apply countP_setCurrentIdx
        have hlen := length_eraseIdx_of_lt ts i hi
        have hpos : (ts.eraseIdx i).length ≠ 0 := by
          simpa [List.length_eq_zero] using hemp
        omega
      · rw [removeTabFall_of_notcur ts bid hf ha (by simpa using hcur)]
        simp only [hcur, if_neg] at herase
        simp at herase
        omega

/-! ### Structural lemmas for the layout-level invariant -/

theorem mem_insertIdx_cases {α : Type} (a : α) :
    ∀ (l : List α) (i : Nat) (x : α), x ∈ l.insertIdx i a → x = a ∨ x ∈ l := by
  intro l
  induction l with
  | nil =>
    intro i x hx
    cases i with
    | zero => simp [List.insertIdx] at hx; exact Or.inl hx
    | succ i => simp [List.insertIdx] at hx
  | cons b bs ih =>
    intro i x hx
    cases i with
    | zero =>
      rw [List.insertIdx_zero] at hx
      rcases List.mem_cons.mp hx with h | h
      · exact Or.inl h
      · exact Or.inr h
    | succ i =>
      rw [List.insertIdx_succ_cons] at hx
      rcases List.mem_cons.mp hx with h | h
      · exact Or.inr (by simp [h])
      · rcases ih i x h with h2 | h2
        · exact Or.inl h2
        · exact Or.inr (by simp [h2])

theorem mem_updateGroup_cases (l : List BlockGroup) (gid : Nat)
    (f : BlockGroup → BlockGroup) (x : BlockGroup)
    (hx : x ∈ updateGroup l gid f) : (∃ g ∈ l, x = f g) ∨ x ∈ l := by
  unfold updateGroup at hx
  obtain ⟨g, hg, hgx⟩ := List.mem_map.mp hx
  by_cases h : g.id == gid
  · rw [if_pos h] at hgx
    exact Or.inl ⟨g, hg, hgx.symm⟩
  · rw [if_neg h] at hgx
    exact Or.inr (hgx ▸ hg)

theorem LOK_filter (l : List BlockGroup) (p : BlockGroup → Bool)
    (h : LOK l) : LOK (l.filter p) := by
  intro g hg
  exact h g (List.mem_of_mem_filter hg)

theorem LOK_wLOK (l : List BlockGroup) (h : LOK l) : wLOK l :=
  fun g hg _ => (h g hg).2

theorem LOK_dropEmpty (l : List BlockGroup) (h : wLOK l) :
    LOK (dropEmptyGroups l) := by
  intro g hg
  unfold dropEmptyGroups at hg
  have hmem := List.mem_of_mem_filter hg
  have hcond := List.of_mem_filter hg
  have hne : g.tabs ≠ [] := by
    simpa [List.isEmpty_iff] using hcond
  exact ⟨hne, h g hmem hne⟩

theorem LOK_updateGroup (l : List BlockGroup) (gid : Nat)
    (f : BlockGroup → BlockGroup) (hf : ∀ g, gOK g → gOK (f g))
    (h : LOK l) : LOK (updateGroup l gid f) := by
  intro x hx
  rcases mem_updateGroup_cases l gid f x hx with ⟨g, hg, rfl⟩ | hmem
  · exact hf g (h g hg)
  · exact h x hmem

theorem wLOK_updateGroup (l : List BlockGroup) (gid : Nat)
    (f : BlockGroup → BlockGroup) (hf : ∀ g, wgOK g → wgOK (f g))
    (h : wLOK l) : wLOK (updateGroup l gid f) := by
  intro x hx
  rcases mem_updateGroup_cases l gid f x hx with ⟨g, hg, rfl⟩ | hmem
  · exact hf g (h g hg)
  · exact h x hmem

theorem LOK_insertIdx (l : List BlockGroup) (i : Nat) (g : BlockGroup)
    (hg : gOK g) (h : LOK l) : LOK (l.insertIdx i g) := by
  intro x hx
  rcases mem_insertIdx_cases g l i x hx with rfl | hmem
  · exact hg
  · exact h x hmem

theorem mem_listMoveGroup (l : List BlockGroup) (gid : Nat) (i : Nat)
    (x : BlockGroup) (hx : x ∈ listMoveGroup l gid i) : x ∈ l := by
  unfold listMoveGroup at hx
  cases hfind : l.find? (fun g => g.id == gid) with
  | none => rw [hfind] at hx; exact hx
  | some g =>
    rw [hfind] at hx
    rcases mem_insertIdx_cases g _ _ x hx with rfl | hmem
    · exact List.mem_of_find?_eq_some hfind
    · exact (List.eraseP_sublist l).mem hmem

theorem LOK_listMoveGroup (l : List BlockGroup) (gid : Nat) (i : Nat)
    (h : LOK l) : LOK (listMoveGroup l gid i) :=
  fun x hx => h x (mem_listMoveGroup l gid i x hx)

/-- The weak per-group invariant is preserved by the currency-falling tab
removal. -/
theorem wgOK_removeTabFall (g : BlockGroup) (bid : Nat) (h : wgOK g) :
    wgOK ⟨g.id, removeTabFall g.tabs bid⟩ := by
  intro hne
  simp only at hne ⊢
  cases hf : listFindIdx (fun t => t.blockId == bid) g.tabs with
  | none =>
    rw [removeTabFall_of_none _ _ hf] at hne ⊢
    exact h hne
  | some i =>
    have hts : g.tabs ≠ [] := by
      intro hc
      rw [hc] at hf
      simp [listFindIdx] at hf
    exact countP_removeTabFall g.tabs bid (h hts) hne

theorem length_copyTabsFrom : ∀ (ts : List Tab) (n : Nat),
    (copyTabsFrom ts n).length = ts.length := by
  intro ts
  induction ts with
  | nil => intro n; rfl
  | cons t ts ih => intro n; simp [copyTabsFrom, ih]

theorem countP_copyTabsFrom : ∀ (ts : List Tab) (n : Nat),
    (copyTabsFrom ts n).countP (fun t => t.isCurrent) =
      ts.countP (fun t => t.isCurrent) := by
  intro ts
  induction ts with
  | nil => intro n; rfl
  | cons t ts ih => intro n; simp [copyTabsFrom, List.countP_cons, ih]

theorem countP_toggleHiddenTab (ts : List Tab) (bid : Nat) :
    (toggleHiddenTab ts bid).countP (fun t => t.isCurrent) =
      ts.countP (fun t => t.isCurrent) := by
  unfold toggleHiddenTab
  rw [List.countP_map]
  apply List.countP_congr
  intro t _
  by_cases h : t.blockId = bid <;> simp [h]

/-! ### Preservation of the current-tab invariant by each operation -/

theorem LOK_addBlockGroup (s : EditorState) (bs : BlockSpec) (index : Nat)
    (h : LOK s.layout) : LOK ((addBlockGroup s bs index).2.layout) := by
  unfold addBlockGroup
  apply LOK_insertIdx
  · exact ⟨by simp, by simp [List.countP_cons]⟩
  · exact h

theorem gOK_insertAnchored (bid0 anchor : Nat) (pos : TabPos)
    (g : BlockGroup) (hok : gOK g) :
    gOK (insertAnchoredTab anchor bid0 pos g) := by
  unfold insertAnchoredTab
  cases hfi : listFindIdx (fun t => t.blockId == anchor) g.tabs with
  | none => exact hok
  | some i =>
    have hi := listFindIdx_lt_length _ hfi
    cases pos
    · exact ⟨insertTabCurrent_ne_nil _ _ _ (Nat.le_of_lt hi),
        countP_insertTabCurrent _ _ _ (Nat.le_of_lt hi)⟩
    · exact ⟨insertTabCurrent_ne_nil _ _ _ hi,
        countP_insertTabCurrent _ _ _ hi⟩

theorem LOK_addGroupedBlock (s : EditorState) (gid anchor : Nat)
    (bs : BlockSpec) (pos : TabPos) (h : LOK s.layout) :
    LOK ((addGroupedBlock s gid anchor bs pos).layout) := by
  unfold addGroupedBlock
  split
  · exact h
  · split
    · exact h
    · apply LOK_updateGroup
      · intro g0 hok
        exact gOK_insertAnchored s.nextId anchor pos g0 hok
      · exact h

theorem LOK_addBlockGroupAfterBlock (s : EditorState) (bs : BlockSpec)
    (afterBid : Nat) (h : LOK s.layout) :
    LOK ((addBlockGroupAfterBlock s bs afterBid).2.layout) := by
  unfold addBlockGroupAfterBlock
  split
  · exact h
  · split
    · exact h
    · split
      · apply LOK_insertIdx
        · exact ⟨by simp, by simp [List.countP_cons]⟩
        · exact h
      · exact LOK_addGroupedBlock s _ afterBid bs .after h

theorem LOK_groupBlocks (s : EditorState) (a b c : Nat) (h : LOK s.layout) :
    LOK ((groupBlocks s a b c).layout) := by
  unfold groupBlocks
  split
  · exact h
  · split
    · split
      · exact h
      · apply LOK_dropEmpty
        apply wLOK_updateGroup
        · intro g0 hok hne
          simp only at hne ⊢
          rw [countP_insertTabCurrent _ _ _ (Nat.le_refl _)]
        · apply wLOK_updateGroup
          · intro g0 hok
            exact wgOK_removeTabFall g0 b hok
          · exact LOK_wLOK _ h
    all_goals exact h

theorem LOK_groupBlockGroups (s : EditorState) (a b : Nat) (h : LOK s.layout) :
    LOK ((groupBlockGroups s a b).layout) := by
  unfold groupBlockGroups
  split
  · exact h
  · split
    · apply LOK_updateGroup
      · intro g0 hok
        refine ⟨by simp [hok.1], ?_⟩
        simp only [List.countP_append, hok.2, countP_clearCurrent]
      · exact LOK_filter _ _ h
    all_goals exact h

theorem LOK_updateOrder (s : EditorState) (gid tgtIdx : Nat)
    (h : LOK s.layout) : LOK ((updateOrder s gid tgtIdx).layout) := by
  unfold updateOrder
  exact LOK_listMoveGroup _ _ _ h

theorem LOK_ungroupTab (s : EditorState) (a b c : Nat) (h : LOK s.layout) :
    LOK ((ungroupTab s a b c).layout) := by
  unfold ungroupTab
  split
  · exact h
  · split
    · exact h
    · split
      · exact LOK_listMoveGroup _ _ _ h
      · apply LOK_insertIdx
        · exact ⟨by simp, by simp [List.countP_cons]⟩
        · apply LOK_dropEmpty
          apply wLOK_updateGroup
          · intro g0 hok
            exact wgOK_removeTabFall g0 b hok
          · exact LOK_wLOK _ h

theorem wgOK_insertBeside (tgtBid : Nat) (side : TabSide) (t : Tab)
    (g : BlockGroup) (hok : wgOK g) :
    wgOK (match listFindIdx (fun u => u.blockId == tgtBid) g.tabs with
          | none => g
          | some j =>
            ⟨g.id, g.tabs.insertIdx
              (match side with | .left => j | .right => j + 1)
              { t with isCurrent := false }⟩) := by
  cases hfj : listFindIdx (fun u => u.blockId == tgtBid) g.tabs with
  | none => exact hok
  | some j =>
    intro hne
    have hj := listFindIdx_lt_length _ hfj
    have hts : g.tabs ≠ [] := by
      intro hc
      rw [hc] at hj
      simp at hj
    simp only at hne ⊢
    cases side
    · rw [countP_insertIdx _ _ _ _ (by exact Nat.le_of_lt hj)]
      simp [hok hts]
    · rw [countP_insertIdx _ _ _ _ (by exact hj)]
      simp [hok hts]

theorem LOK_reorderTab (s : EditorState) (a b c : Nat) (side : TabSide)
    (h : LOK s.layout) : LOK ((reorderTab s a b c side).layout) := by
  unfold reorderTab
  split
  · exact h
  · split
    · split
      · exact h
      · apply LOK_dropEmpty
        apply wLOK_updateGroup
        · intro g0 hok
          exact wgOK_insertBeside c side _ g0 hok
        · apply wLOK_updateGroup
          · intro g0 hok
            exact wgOK_removeTabFall g0 b hok
          · exact LOK_wLOK _ h
    all_goals exact h

theorem LOK_removeBlockGroup (dash : Nat → Bool) (s : EditorState)
    (gid : Nat) (force : Bool) (h : LOK s.layout) :
    LOK ((removeBlockGroup dash s gid force).2.layout) := by
  unfold removeBlockGroup
  split
  · exact h
  · split
    · exact h
    · exact LOK_filter _ _ h

theorem LOK_removeBlock (dash : Nat → Bool) (s : EditorState)
    (gid bid : Nat) (force : Bool) (h : LOK s.layout) :
    LOK ((removeBlock dash s gid bid force).2.layout) := by
  unfold removeBlock
  split
  · exact h
  · split
    · exact h
    · split
      · exact h
      · apply LOK_dropEmpty
        apply wLOK_updateGroup
        · intro g0 hok
          exact wgOK_removeTabFall g0 bid hok
        · exact LOK_wLOK _ h

theorem LOK_duplicateBlockGroup (s : EditorState) (gid : Nat)
    (h : LOK s.layout) : LOK ((duplicateBlockGroup s gid).layout) := by
  unfold duplicateBlockGroup
  split
  · exact h
  · split
    · exact h
    · rename_i i heq g h2
      have hg : g ∈ s.layout := List.getElem?_mem h2
      have hok := h g hg
      apply LOK_insertIdx
      · constructor
        · simp only
          intro hc
          have := length_copyTabsFrom g.tabs s.nextId
          rw [hc] at this
          simp at this
          exact hok.1 (List.length_eq_zero.mp this.symm)
        · simp only
          rw [countP_copyTabsFrom]
          exact hok.2
      · exact h

theorem LOK_duplicateTab (s : EditorState) (gid bid : Nat)
    (h : LOK s.layout) : LOK ((duplicateTab s gid bid).layout) := by
  unfold duplicateTab
  split
  · exact h
  · split
    · exact h
    · split
      · exact h
      · apply LOK_updateGroup
        · intro g0 hok
          split
          · exact hok
          · rename_i j hfj
            have hj := listFindIdx_lt_length _ hfj
            constructor
            · simp only
              intro hc
              have := List.length_insertIdx (a :=
                (⟨s.nextId, false, ((g0.tabs[j]?).map Tab.isHiddenInPublished).getD false⟩ : Tab))
                (j + 1) g0.tabs (by omega)
              rw [hc] at this
              simp at this
            · simp only
              rw [countP_insertIdx _ _ _ _ (by omega)]
              simp [hok.2]
        · exact h

theorem LOK_toggleHidden (s : EditorState) (gid bid : Nat)
    (h : LOK s.layout) :
    LOK ((toggleIsBlockHiddenInPublished s gid bid).layout) := by
  unfold toggleIsBlockHiddenInPublished
  apply LOK_updateGroup
  · intro g0 hok
    constructor
    · simp only
      intro hc
      have : (toggleHiddenTab g0.tabs bid).length = g0.tabs.length := by
        simp [toggleHiddenTab]
      rw [hc] at this
      simp at this
      exact hok.1 (List.length_eq_zero.mp this.symm)
    · simp only
      rw [countP_toggleHiddenTab]
      exact hok.2
  · exact h

theorem LOK_switchActiveTab (s : EditorState) (gid bid : Nat)
    (h : LOK s.layout) : LOK ((switchActiveTab s gid bid).layout) := by
  unfold switchActiveTab
  apply LOK_updateGroup
  · intro g0 hok
    cases hfi : listFindIdx (fun t => t.blockId == bid) g0.tabs with
    | none => exact hok
    | some i =>
      have hi := listFindIdx_lt_length _ hfi
      constructor
      · simp only
        intro hc
        have := length_setCurrentIdx g0.tabs i
        rw [hc] at this
        simp at this
        omega
      · simp only
        exact countP_setCurrentIdx _ _ hi
  · exact h

/-! ### Computation rules for the removal operations -/

theorem find?_filter_first {α : Type} (p q : α → Bool) :
    ∀ (l : List α) (x : α), l.find? p = some x → q x = true →
      (l.filter q).find? p = some x := by
  intro l
  induction l with
  | nil => intro x hx; simp at hx
  | cons a as ih =>
    intro x hx hq
    by_cases hpa : p a
    · rw [List.find?_cons_of_pos _ hpa] at hx
      injection hx with hx
      subst hx
      rw [List.filter_cons_of_pos hq]
      exact List.find?_cons_of_pos _ hpa
    · rw [List.find?_cons_of_neg _ hpa] at hx
      by_cases hqa : q a
      · rw [List.filter_cons_of_pos hqa]
        rw [List.find?_cons_of_neg _ hpa]
        exact ih x hx hq
      · rw [List.filter_cons_of_neg (by simpa using hqa)]
        exact ih x hx hq

theorem getBlockGroup_updateGroup (l : List BlockGroup) (gid : Nat)
    (f : BlockGroup → BlockGroup) (hf : ∀ g, (f g).id = g.id) :
    getBlockGroup (updateGroup l gid f) gid =
      (getBlockGroup l gid).map f := by
  induction l with
  | nil => rfl
  | cons g gs ih =>
    unfold getBlockGroup updateGroup at ih ⊢
    simp only [List.map_cons]
    by_cases hg : (g.id == gid) = true
    · rw [if_pos hg]
      simp only [List.find?_cons, hf g, hg]
      rfl
    · have hgf : (g.id == gid) = false := by simpa using hg
      rw [if_neg hg]
      simp only [List.find?_cons, hgf]
      exact ih

theorem removeBlockGroup_conflict (dash : Nat → Bool) (s : EditorState)
    (gid : Nat) (g : BlockGroup) (hg : getBlockGroup s.layout gid = some g)
    (hc : findConflicts dash (tabIds g) ≠ []) :
    removeBlockGroup dash s gid false =
      (.dashboardConflict (findConflicts dash (tabIds g)), s) := by
  unfold removeBlockGroup
  split
  · rename_i heq
    rw [hg] at heq
    simp at heq
  · rename_i g' heq
    rw [hg] at heq
    cases heq
    rw [if_pos (by simp [List.isEmpty_iff, hc])]

theorem removeBlockGroup_removes (dash : Nat → Bool) (s : EditorState)
    (gid : Nat) (force : Bool) (g : BlockGroup)
    (hg : getBlockGroup s.layout gid = some g)
    (hfc : force = true ∨ findConflicts dash (tabIds g) = []) :
    removeBlockGroup dash s gid force =
      (.success,
        { s with
          layout := s.layout.filter (fun h => h.id != gid)
          blocks := deleteBlocks s.blocks (tabIds g) }) := by
  unfold removeBlockGroup
  split
  · rename_i heq
    rw [hg] at heq
    simp at heq
  · rename_i g' heq
    rw [hg] at heq
    cases heq
    rcases hfc with hf | hc
    · subst hf
      rw [if_neg (by simp)]
    · rw [if_neg (by simp [hc])]

theorem removeBlock_conflict (dash : Nat → Bool) (s : EditorState)
    (gid bid : Nat) (g : BlockGroup) (a : Tab)
    (hg : getBlockGroup s.layout gid = some g)
    (ha : g.tabs.find? (fun t => t.blockId == bid) = some a)
    (hd : dash bid = true) :
    removeBlock dash s gid bid false = (.dashboardConflict [bid], s) := by
  unfold removeBlock
  split
  · rename_i heq
    rw [hg] at heq
    simp at heq
  · rename_i g' heq
    rw [hg] at heq
    cases heq
    split
    · rename_i heq2
      rw [ha] at heq2
      simp at heq2
    · rename_i a' heq2
      rw [ha] at heq2
      cases heq2
      rw [if_pos (by simp [findConflicts, hd])]
      simp [findConflicts, hd]

theorem removeBlock_removes (dash : Nat → Bool) (s : EditorState)
    (gid bid : Nat) (force : Bool) (g : BlockGroup) (a : Tab)
    (hg : getBlockGroup s.layout gid = some g)
    (ha : g.tabs.find? (fun t => t.blockId == bid) = some a)
    (hfc : force = true ∨ dash bid = false) :
    removeBlock dash s gid bid force =
      (.success,
        { s with
          layout := dropEmptyGroups (updateGroup s.layout gid
            (fun h => ⟨h.id, removeTabFall h.tabs bid⟩))
          blocks := deleteBlocks s.blocks [bid] }) := by
  unfold removeBlock
  split
  · rename_i heq
    rw [hg] at heq
    simp at heq
  · rename_i g' heq
    rw [hg] at heq
    cases heq
    split
    · rename_i heq2
      rw [ha] at heq2
      simp at heq2
    · rename_i a' heq2
      rw [ha] at heq2
      cases heq2
      rcases hfc with hf | hd
      · subst hf
        rw [if_neg (by simp)]
      · rw [if_neg (by simp [findConflicts, hd])]

/-- After a non-conflicting removal of the current tab at position `i` of a
group with at least two tabs, the group remains in the layout with the
current-tab marker deterministically on position `i - 1` of the remaining
sequence (the tab that was immediately before the removed one, or the new
first tab when the removed tab was first). -/
theorem removeBlock_currency_fall (dash : Nat → Bool) (s : EditorState)
    (gid bid : Nat) (g : BlockGroup) (i : Nat) (t : Tab)
    (hg : getBlockGroup s.layout gid = some g)
    (hfi : listFindIdx (fun u => u.blockId == bid) g.tabs = some i)
    (ht : g.tabs[i]? = some t) (hcur : t.isCurrent = true)
    (hlen : 2 ≤ g.tabs.length) (hd : dash bid = false) :
    getBlockGroup ((removeBlock dash s gid bid false).2).layout gid =
      some ⟨g.id, setCurrentIdx (g.tabs.eraseIdx i) (i - 1)⟩ := by
  have hi := listFindIdx_lt_length _ hfi
  have hlen2 := length_eraseIdx_of_lt g.tabs i hi
  have hne2 : g.tabs.eraseIdx i ≠ [] := by
    intro hc
    rw [hc] at hlen2
    simp at hlen2
    omega
  have hrtf : removeTabFall g.tabs bid =
      setCurrentIdx (g.tabs.eraseIdx i) (i - 1) :=
    removeTabFall_of_cur g.tabs bid hfi ht hcur hne2
  have hfind : (g.tabs.find? (fun u => u.blockId == bid)).isSome := by
    rw [List.find?_isSome]
    obtain ⟨a, ha, hpa⟩ := listFindIdx_getElem _ hfi
    exact ⟨a, List.getElem?_mem ha, hpa⟩
  obtain ⟨a, hfa⟩ := Option.isSome_iff_exists.mp hfind
  rw [removeBlock_removes dash s gid bid false g a hg hfa (Or.inr hd)]
  simp only
  have hupd := getBlockGroup_updateGroup s.layout gid
    (fun h => ⟨h.id, removeTabFall h.tabs bid⟩) (fun g0 => rfl)
  rw [hg] at hupd
  simp only [Option.map] at hupd
  rw [← hrtf]
  unfold getBlockGroup dropEmptyGroups
  unfold getBlockGroup at hupd
  apply find?_filter_first _ _ _ _ hupd
  have hnemp : removeTabFall g.tabs bid ≠ [] := by
    rw [hrtf]
    intro hc
    have := length_setCurrentIdx (g.tabs.eraseIdx i) (i - 1)
    rw [hc] at this
    simp at this
    omega
  simp [List.isEmpty_iff, hnemp]

theorem groupIds_filter_ne (l : List BlockGroup) (gid : Nat) :
    gid ∉ groupIds (l.filter (fun h => h.id != gid)) := by
  unfold groupIds
  intro hmem
  obtain ⟨g, hg, hid⟩ := List.mem_map.mp hmem
  have := List.of_mem_filter hg
  simp [hid] at this

/-- Every operation of the structural operation set preserves the layout
invariant: all groups non-empty with a unique current tab. -/
theorem LOK_applyOp (dash : Nat → Bool) (op : Op) (s : EditorState)
    (h : LOK s.layout) : LOK ((applyOp dash op s).layout) := by
  cases op with
  | addBlockGroup bs index => exact LOK_addBlockGroup s bs index h
  | addGroupedBlock gid anchor bs pos =>
    exact LOK_addGroupedBlock s gid anchor bs pos h
  | addBlockGroupAfterBlock bs afterBid =>
    exact LOK_addBlockGroupAfterBlock s bs afterBid h
  | groupBlocks a b c => exact LOK_groupBlocks s a b c h
  | groupBlockGroups a b => exact LOK_groupBlockGroups s a b h
  | ungroupTab a b c => exact LOK_ungroupTab s a b c h
  | updateOrder a b => exact LOK_updateOrder s a b h
  | reorderTab a b c side => exact LOK_reorderTab s a b c side h
  | removeBlockGroup gid force => exact LOK_removeBlockGroup dash s gid force h
  | removeBlock gid bid force => exact LOK_removeBlock dash s gid bid force h
  | duplicateBlockGroup gid => exact LOK_duplicateBlockGroup s gid h
  | duplicateTab gid bid => exact LOK_duplicateTab s gid bid h
  | toggleHidden gid bid => exact LOK_toggleHidden s gid bid h
  | switchActiveTab gid bid => exact LOK_switchActiveTab s gid bid h

/-! ### Identifier discipline: membership invariant machinery -/

theorem allBlockIds_nil : allBlockIds [] = [] := rfl

theorem allBlockIds_cons (g : BlockGroup) (gs : List BlockGroup) :
    allBlockIds (g :: gs) = tabIds g ++ allBlockIds gs := by
  simp [allBlockIds]

theorem allBlockIds_append (l₁ l₂ : List BlockGroup) :
    allBlockIds (l₁ ++ l₂) = allBlockIds l₁ ++ allBlockIds l₂ := by
  simp [allBlockIds]

theorem allBlockIds_sublist {l₁ l₂ : List BlockGroup} (h : l₁.Sublist l₂) :
    (allBlockIds l₁).Sublist (allBlockIds l₂) := by
  induction h with
  | slnil => exact List.Sublist.refl _
  | cons g _ ih =>
    rw [allBlockIds_cons]
    exact ih.trans (List.sublist_append_right _ _)
  | cons₂ g _ ih =>
    rw [allBlockIds_cons, allBlockIds_cons]
    exact List.Sublist.append (List.Sublist.refl _) ih

theorem allBlockIds_perm {l₁ l₂ : List BlockGroup} (h : l₁.Perm l₂) :
    (allBlockIds l₁).Perm (allBlockIds l₂) :=
  h.flatMap_right tabIds

theorem groupIds_updateGroup (l : List BlockGroup) (gid : Nat)
    (f : BlockGroup → BlockGroup) (hf : ∀ g, (f g).id = g.id) :
    groupIds (updateGroup l gid f) = groupIds l := by
  unfold groupIds updateGroup
  rw [List.map_map]
  apply List.map_congr_left
  intro g _
  by_cases hg : g.id = gid <;> simp [hg, hf g]

theorem updateGroup_of_not_mem (l : List BlockGroup) (gid : Nat)
    (f : BlockGroup → BlockGroup) (h : gid ∉ groupIds l) :
    updateGroup l gid f = l := by
  induction l with
  | nil => rfl
  | cons g gs ih =>
    unfold updateGroup at ih ⊢
    have hg : (g.id == gid) = false := by
      simp only [groupIds, List.map_cons, List.mem_cons] at h
      simp only [beq_eq_false_iff_ne, ne_eq]
      intro hc
      exact h (Or.inl hc.symm)
    simp only [List.map_cons, hg]
    rw [ih (fun hc => h (by simp [groupIds] at hc ⊢; exact Or.inr hc))]
    simp

theorem allBlockIds_updateGroup_perm (l : List BlockGroup) (gid : Nat)
    (f : BlockGroup → BlockGroup) (g : BlockGroup) (news : List Nat)
    (hnd : (groupIds l).Nodup) (hg : getBlockGroup l gid = some g)
    (hperm : (tabIds (f g)).Perm (news ++ tabIds g)) :
    (allBlockIds (updateGroup l gid f)).Perm (news ++ allBlockIds l) := by
  induction l with
  | nil => simp [getBlockGroup] at hg
  | cons h hs ih =>
    unfold getBlockGroup at hg
    rw [List.find?_cons] at hg
    unfold updateGroup
    simp only [List.map_cons]
    by_cases hh : (h.id == gid) = true
    · rw [hh] at hg
      simp only at hg
      injection hg with hg
      subst hg
      rw [if_pos hh]
      have hid : h.id = gid := by simpa using hh
      have hnot : gid ∉ groupIds hs := by
        simp only [groupIds, List.map_cons, List.nodup_cons] at hnd
        rw [← hid]
        exact hnd.1
      have hrest : updateGroup hs gid f = hs := updateGroup_of_not_mem hs gid f hnot
      unfold updateGroup at hrest
      rw [hrest, allBlockIds_cons, allBlockIds_cons, ← List.append_assoc]
      exact hperm.append_right _
    · have hhf : (h.id == gid) = false := by simpa using hh
      rw [hhf] at hg
      simp only at hg
      rw [if_neg (by simp [hhf])]
      have hnd2 : (groupIds hs).Nodup := by
        simp only [groupIds, List.map_cons, List.nodup_cons] at hnd
        exact hnd.2
      have hrec := ih hnd2 hg
      unfold updateGroup at hrec
      rw [allBlockIds_cons, allBlockIds_cons]
      have h1 := hrec.append_left (tabIds h)
      have h2 : ((tabIds h ++ news) ++ allBlockIds hs).Perm
          ((news ++ tabIds h) ++ allBlockIds hs) :=
        List.perm_append_comm.append_right _
      rw [List.append_assoc, List.append_assoc] at h2
      exact h1.trans h2

theorem allBlockIds_updateGroup_sublist (l : List BlockGroup) (gid : Nat)
    (f : BlockGroup → BlockGroup)
    (hf : ∀ g, (tabIds (f g)).Sublist (tabIds g)) :
    (allBlockIds (updateGroup l gid f)).Sublist (allBlockIds l) := by
  induction l with
  | nil => exact List.Sublist.refl _
  | cons h hs ih =>
    unfold updateGroup at ih ⊢
    simp only [List.map_cons]
    rw [allBlockIds_cons, allBlockIds_cons]
    by_cases hh : (h.id == gid) = true
    · rw [if_pos hh]
      exact List.Sublist.append (hf h) ih
    · rw [if_neg hh]
      exact List.Sublist.append (List.Sublist.refl _) ih

theorem map_blockId_clearCurrent (ts : List Tab) :
    (clearCurrent ts).map Tab.blockId = ts.map Tab.blockId := by
  simp [clearCurrent]

theorem map_blockId_setCurrentIdx : ∀ (ts : List Tab) (j : Nat),
    (setCurrentIdx ts j).map Tab.blockId = ts.map Tab.blockId := by
  intro ts
  induction ts with
  | nil => intro j; rfl
  | cons t ts ih =>
    intro j
    cases j with
    | zero => simp [setCurrentIdx, map_blockId_clearCurrent]
    | succ j => simp [setCurrentIdx, ih]

theorem tabIds_removeTabFall_sublist (g : BlockGroup) (bid : Nat) :
    (tabIds ⟨g.id, removeTabFall g.tabs bid⟩).Sublist (tabIds g) := by
  unfold tabIds
  simp only
  cases hf : listFindIdx (fun t => t.blockId == bid) g.tabs with
  | none => rw [removeTabFall_of_none _ _ hf]
  | some i =>
    obtain ⟨a, ha, hpa⟩ := listFindIdx_getElem _ hf
    have herase : ((g.tabs.eraseIdx i).map Tab.blockId).Sublist
        (g.tabs.map Tab.blockId) :=
      (List.eraseIdx_sublist g.tabs i).map Tab.blockId
    by_cases hemp : g.tabs.eraseIdx i = []
    · rw [removeTabFall_of_cur_emptied _ _ hf ha hemp]
      exact herase
    · by_cases hcur : a.isCurrent
      · rw [removeTabFall_of_cur _ _ hf ha hcur hemp]
        rw [map_blockId_setCurrentIdx]
        exact herase
      · rw [removeTabFall_of_notcur _ _ hf ha (by simpa using hcur)]
        exact herase

theorem dropEmptyGroups_sublist (l : List BlockGroup) :
    (dropEmptyGroups l).Sublist l :=
  List.filter_sublist l

theorem IdsOK_addBlockGroup (s : EditorState) (bs : BlockSpec) (index : Nat)
    (h : IdsOK s) : IdsOK (addBlockGroup s bs index).2 := by
  obtain ⟨hnb, hng, hfb, hfg, hfs⟩ := h
  have hmin : min index s.layout.length ≤ s.layout.length := Nat.min_le_right _ _
  have hperm0 := List.perm_insertIdx
    (⟨s.nextId + 1, [⟨s.nextId, true, false⟩]⟩ : BlockGroup) s.layout hmin
  have hpermB : (allBlockIds (addBlockGroup s bs index).2.layout).Perm
      (s.nextId :: allBlockIds s.layout) := allBlockIds_perm hperm0
  have hpermG : (groupIds (addBlockGroup s bs index).2.layout).Perm
      ((s.nextId + 1) :: groupIds s.layout) := hperm0.map BlockGroup.id
  have hnext : (addBlockGroup s bs index).2.nextId = s.nextId + 2 := rfl
  have hblocks : (addBlockGroup s bs index).2.blocks =
      (s.nextId, mkBlock bs) :: s.blocks := rfl
  refine ⟨?_, ?_, ?_, ?_, ?_⟩
  · apply hpermB.symm.nodup
    rw [List.nodup_cons]
    exact ⟨fun hc => by have := hfb _ hc; omega, hnb⟩
  · apply hpermG.symm.nodup
    rw [List.nodup_cons]
    exact ⟨fun hc => by have := hfg _ hc; omega, hng⟩
  · intro b hb
    rw [hnext]
    rcases List.mem_cons.mp (hpermB.mem_iff.mp hb) with hb2 | hb2
    · omega
    · have := hfb _ hb2; omega
  · intro gi hgi
    rw [hnext]
    rcases List.mem_cons.mp (hpermG.mem_iff.mp hgi) with hg2 | hg2
    · omega
    · have := hfg _ hg2; omega
  · intro p hp
    rw [hnext]
    rw [hblocks] at hp
    rcases List.mem_cons.mp hp with hp2 | hp2
    · subst hp2
      show s.nextId < s.nextId + 2
      omega
    · have := hfs _ hp2; omega

theorem tabIds_insertAnchoredTab_perm (anchor nid : Nat) (pos : TabPos)
    (g : BlockGroup) {i0 : Nat}
    (heq2 : listFindIdx (fun t => t.blockId == anchor) g.tabs = some i0) :
    (tabIds (insertAnchoredTab anchor nid pos g)).Perm (nid :: tabIds g) := by
  unfold insertAnchoredTab
  rw [heq2]
  have hi0 := listFindIdx_lt_length _ heq2
  have hj : ∀ j, j ≤ g.tabs.length →
      (tabIds ⟨g.id, insertTabCurrent g.tabs j ⟨nid, true, false⟩⟩).Perm
        (nid :: tabIds g) := by
    intro j hjle
    unfold tabIds insertTabCurrent
    simp only
    have hp := @List.perm_insertIdx Tab
      ({ blockId := nid, isCurrent := true, isHiddenInPublished := false } : Tab)
      (clearCurrent g.tabs) j (by rw [length_clearCurrent]; exact hjle)
    have hmap := hp.map Tab.blockId
    rw [List.map_cons, map_blockId_clearCurrent] at hmap
    exact hmap
  cases pos
  · exact hj i0 (Nat.le_of_lt hi0)
  · exact hj (i0 + 1) hi0

theorem addGroupedBlock_noGroup (s : EditorState) (gid anchor : Nat)
    (bs : BlockSpec) (pos : TabPos)
    (hg : getBlockGroup s.layout gid = none) :
    addGroupedBlock s gid anchor bs pos = s := by
  unfold addGroupedBlock
  split
  · rfl
  · simp_all

theorem addGroupedBlock_noAnchor (s : EditorState) (gid anchor : Nat)
    (bs : BlockSpec) (pos : TabPos) (g : BlockGroup)
    (hg : getBlockGroup s.layout gid = some g)
    (hfi : listFindIdx (fun t => t.blockId == anchor) g.tabs = none) :
    addGroupedBlock s gid anchor bs pos = s := by
  unfold addGroupedBlock
  split
  · simp_all
  · split
    · rfl
    · simp_all

theorem addGroupedBlock_eq (s : EditorState) (gid anchor : Nat)
    (bs : BlockSpec) (pos : TabPos) (g : BlockGroup) (i0 : Nat)
    (hg : getBlockGroup s.layout gid = some g)
    (hfi : listFindIdx (fun t => t.blockId == anchor) g.tabs = some i0) :
    addGroupedBlock s gid anchor bs pos =
      { layout := updateGroup s.layout gid
          (insertAnchoredTab anchor s.nextId pos)
        blocks := (s.nextId, mkBlock bs) :: s.blocks
        nextId := s.nextId + 1 } := by
  unfold addGroupedBlock
  split
  · simp_all
  · split
    · simp_all
    · rfl

theorem IdsOK_addGroupedBlock (s : EditorState) (gid anchor : Nat)
    (bs : BlockSpec) (pos : TabPos) (h : IdsOK s) :
    IdsOK (addGroupedBlock s gid anchor bs pos) := by
  cases hg : getBlockGroup s.layout gid with
  | none => rw [addGroupedBlock_noGroup s gid anchor bs pos hg]; exact h
  | some g =>
    cases hfi : listFindIdx (fun t => t.blockId == anchor) g.tabs with
    | none =>
      rw [addGroupedBlock_noAnchor s gid anchor bs pos g hg hfi]; exact h
    | some i0 =>
      rw [addGroupedBlock_eq s gid anchor bs pos g i0 hg hfi]
      obtain ⟨hnb, hng, hfb, hfg, hfs⟩ := h
      have hid : ∀ g0, (insertAnchoredTab anchor s.nextId pos g0).id = g0.id := by
        intro g0
        unfold insertAnchoredTab
        cases listFindIdx (fun t => t.blockId == anchor) g0.tabs <;> rfl
      have hperm : (tabIds (insertAnchoredTab anchor s.nextId pos g)).Perm
          ([s.nextId] ++ tabIds g) := by
        rw [List.singleton_append]
        exact tabIds_insertAnchoredTab_perm anchor s.nextId pos g hfi
      have hpermAll := allBlockIds_updateGroup_perm s.layout gid _ g [s.nextId]
        hng hg hperm
      rw [List.singleton_append] at hpermAll
      refine ⟨?_, ?_, ?_, ?_, ?_⟩
      · apply hpermAll.symm.nodup
        rw [List.nodup_cons]
        exact ⟨fun hc => by have := hfb _ hc; omega, hnb⟩
      · show (groupIds (updateGroup s.layout gid
          (insertAnchoredTab anchor s.nextId pos))).Nodup
        rw [groupIds_updateGroup _ _ _ hid]
        exact hng
      · intro b hb
        show b < s.nextId + 1
        rcases List.mem_cons.mp (hpermAll.mem_iff.mp hb) with hb2 | hb2
        · omega
        · have := hfb _ hb2; omega
      · intro gi hgi
        show gi < s.nextId + 1
        have hgi2 : gi ∈ groupIds (updateGroup s.layout gid
            (insertAnchoredTab anchor s.nextId pos)) := hgi
        rw [groupIds_updateGroup _ _ _ hid] at hgi2
        have := hfg _ hgi2; omega
      · intro p hp
        show p.1 < s.nextId + 1
        rcases List.mem_cons.mp hp with hp2 | hp2
        · subst hp2
          show s.nextId < s.nextId + 1
          omega
        · have := hfs _ hp2; omega

theorem IdsOK_sublist_state (s : EditorState) (layout2 : List BlockGroup)
    (blocks2 : List (Nat × Block))
    (hsubB : (allBlockIds layout2).Sublist (allBlockIds s.layout))
    (hsubG : (groupIds layout2).Sublist (groupIds s.layout))
    (hsubS : blocks2.Sublist s.blocks) (h : IdsOK s) :
    IdsOK ⟨layout2, blocks2, s.nextId⟩ := by
  obtain ⟨hnb, hng, hfb, hfg, hfs⟩ := h
  exact ⟨hsubB.nodup hnb, hsubG.nodup hng,
    fun b hb => hfb b (hsubB.mem hb),
    fun gi hgi => hfg gi (hsubG.mem hgi),
    fun p hp => hfs p (hsubS.mem hp)⟩

theorem IdsOK_removeBlock (dash : Nat → Bool) (s : EditorState)
    (gid bid : Nat) (force : Bool) (h : IdsOK s) :
    IdsOK (removeBlock dash s gid bid force).2 := by
  unfold removeBlock
  split
  · exact h
  · split
    · exact h
    · split
      · exact h
      · apply IdsOK_sublist_state s _ _ ?_ ?_ ?_ h
        · apply List.Sublist.trans
          · exact allBlockIds_sublist (dropEmptyGroups_sublist _)
          · exact allBlockIds_updateGroup_sublist s.layout gid _
              (fun g0 => tabIds_removeTabFall_sublist g0 bid)
        · apply List.Sublist.trans
          · exact (dropEmptyGroups_sublist _).map BlockGroup.id
          · show (groupIds (updateGroup s.layout gid
              (fun h0 => ⟨h0.id, removeTabFall h0.tabs bid⟩))).Sublist
              (groupIds s.layout)
            rw [groupIds_updateGroup s.layout gid
              (fun h0 => ⟨h0.id, removeTabFall h0.tabs bid⟩) (fun g0 => rfl)]
        · exact List.filter_sublist _

theorem IdsOK_removeBlockGroup (dash : Nat → Bool) (s : EditorState)
    (gid : Nat) (force : Bool) (h : IdsOK s) :
    IdsOK (removeBlockGroup dash s gid force).2 := by
  unfold removeBlockGroup
  split
  · exact h
  · split
    · exact h
    · apply IdsOK_sublist_state s _ _ ?_ ?_ ?_ h
      · exact allBlockIds_sublist (List.filter_sublist _)
      · exact (List.filter_sublist _).map BlockGroup.id
      · exact List.filter_sublist _

theorem IdsOK_applyOp_basic (dash : Nat → Bool) (op : Op) (s : EditorState)
    (hop : isBasicStructOp op = true) (h : IdsOK s) :
    IdsOK (applyOp dash op s) := by
  cases op
  case addBlockGroup bs index => exact IdsOK_addBlockGroup s bs index h
  case addGroupedBlock gid anchor bs pos =>
    exact IdsOK_addGroupedBlock s gid anchor bs pos h
  case removeBlock gid bid force => exact IdsOK_removeBlock dash s gid bid force h
  case removeBlockGroup gid force =>
    exact IdsOK_removeBlockGroup dash s gid force h
  all_goals simp [isBasicStructOp] at hop

theorem IdsOK_applyOps_basic (dash : Nat → Bool) :
    ∀ (ops : List Op) (s : EditorState),
      (∀ op ∈ ops, isBasicStructOp op = true) → IdsOK s →
      IdsOK (applyOps dash ops s) := by
  intro ops
  induction ops with
  | nil => intro s _ h; exact h
  | cons op ops ih =>
    intro s hops h
    unfold applyOps
    rw [List.foldl_cons]
    exact ih (applyOp dash op s)
      (fun o ho => hops o (List.mem_cons_of_mem _ ho))
      (IdsOK_applyOp_basic dash op s (hops op (List.mem_cons_self _ _)) h)

/-! ### List-move semantics of `updateOrder` -/

theorem find?_of_mem_groupIds (gid : Nat) :
    ∀ (l : List BlockGroup), gid ∈ groupIds l →
      ∃ g, l.find? (fun h => h.id == gid) = some g ∧ g.id = gid := by
  intro l
  induction l with
  | nil => intro h; simp [groupIds] at h
  | cons g gs ih =>
    intro hmem
    have hmem2 : gid = g.id ∨ gid ∈ groupIds gs := by
      have hcons : groupIds (g :: gs) = g.id :: groupIds gs := rfl
      rw [hcons] at hmem
      exact List.mem_cons.mp hmem
    by_cases hg : (g.id == gid) = true
    · exact ⟨g, List.find?_cons_of_pos _ hg, by simpa using hg⟩
    · have hmem3 : gid ∈ groupIds gs := by
        rcases hmem2 with hc | hc
        · exact absurd (by simp [hc]) hg
        · exact hc
      obtain ⟨g2, hfind, hid⟩ := ih hmem3
      have hgf : (g.id == gid) = false := by simpa using hg
      refine ⟨g2, ?_, hid⟩
      rw [List.find?_cons]
      simp only [hgf]
      exact hfind

theorem eraseP_append_of_no_match {α : Type} (p : α → Bool) :
    ∀ (as : List α) (g : α) (bs : List α),
      (∀ a ∈ as, p a = false) → p g = true →
      (as ++ g :: bs).eraseP p = as ++ bs := by
  intro as
  induction as with
  | nil =>
    intro g bs _ hg
    rw [List.nil_append, List.eraseP_cons_of_pos hg, List.nil_append]
  | cons a as ih =>
    intro g bs hno hg
    have hpa : p a = false := hno a (by simp)
    rw [List.cons_append, List.eraseP_cons_of_neg (by simp [hpa])]
    rw [ih g bs (fun x hx => hno x (by simp [hx])) hg]
    rfl

theorem find?_insertIdx_of_no_match {α : Type} (p : α → Bool) (g : α)
    (hg : p g = true) :
    ∀ (rest : List α) (k : Nat), k ≤ rest.length →
      (∀ x ∈ rest, p x = false) →
      (rest.insertIdx k g).find? p = some g := by
  intro rest
  induction rest with
  | nil =>
    intro k hk _
    have hk0 : k = 0 := by simpa using hk
    subst hk0
    rw [List.insertIdx_zero]
    exact List.find?_cons_of_pos _ hg
  | cons x xs ih =>
    intro k hk hno
    cases k with
    | zero =>
      rw [List.insertIdx_zero]
      exact List.find?_cons_of_pos _ hg
    | succ k =>
      rw [List.insertIdx_succ_cons]
      rw [List.find?_cons_of_neg _ (by simp [hno x (by simp)])]
      exact ih k (by simpa using hk) (fun y hy => hno y (by simp [hy]))

theorem eraseP_insertIdx_of_no_match {α : Type} (p : α → Bool) (g : α)
    (hg : p g = true) :
    ∀ (rest : List α) (k : Nat), k ≤ rest.length →
      (∀ x ∈ rest, p x = false) →
      (rest.insertIdx k g).eraseP p = rest := by
  intro rest
  induction rest with
  | nil =>
    intro k hk _
    have hk0 : k = 0 := by simpa using hk
    subst hk0
    rw [List.insertIdx_zero]
    exact List.eraseP_cons_of_pos hg
  | cons x xs ih =>
    intro k hk hno
    cases k with
    | zero =>
      rw [List.insertIdx_zero]
      exact List.eraseP_cons_of_pos hg
    | succ k =>
      rw [List.insertIdx_succ_cons]
      rw [List.eraseP_cons_of_neg (by simp [hno x (by simp)])]
      rw [ih k (by simpa using hk) (fun y hy => hno y (by simp [hy]))]

theorem no_match_eraseP_of_nodup (l : List BlockGroup) (gid : Nat)
    (g : BlockGroup) (hnd : (groupIds l).Nodup)
    (hfind : l.find? (fun h => h.id == gid) = some g) :
    ∀ x ∈ l.eraseP (fun h => h.id == gid), (x.id == gid) = false := by
  obtain ⟨hpg, as, bs, heq, hno⟩ := List.find?_eq_some.mp hfind
  subst heq
  rw [eraseP_append_of_no_match _ as g bs
    (fun a ha => by simpa using hno a ha) hpg]
  intro x hx
  rcases List.mem_append.mp hx with hx | hx
  · simpa using hno x hx
  · have hgid : g.id = gid := by simpa using hpg
    rw [groupIds] at hnd
    rw [List.map_append, List.map_cons] at hnd
    have hnodup2 := (List.nodup_append.mp hnd).2.1
    rw [List.nodup_cons] at hnodup2
    have : x.id ∈ List.map BlockGroup.id bs := List.mem_map_of_mem _ hx
    simp only [beq_eq_false_iff_ne, ne_eq]
    intro hc
    rw [← hgid] at hc
    rw [hc] at this
    exact hnodup2.1 this

theorem listMoveGroup_eq (l : List BlockGroup) (gid : Nat) (i : Nat)
    (g : BlockGroup) (hfind : l.find? (fun h => h.id == gid) = some g) :
    listMoveGroup l gid i =
      (l.eraseP (fun h => h.id == gid)).insertIdx
        (min i (l.eraseP (fun h => h.id == gid)).length) g := by
  unfold listMoveGroup
  rw [hfind]

theorem listMoveGroup_listMoveGroup (l : List BlockGroup) (gid : Nat)
    (i j : Nat) (hnd : (groupIds l).Nodup) (hmem : gid ∈ groupIds l) :
    listMoveGroup (listMoveGroup l gid i) gid j = listMoveGroup l gid j := by
  obtain ⟨g, hfind, hgid⟩ := find?_of_mem_groupIds gid l hmem
  have hpg : (g.id == gid) = true := by simp [hgid]
  have hno := no_match_eraseP_of_nodup l gid g hnd hfind
  have hkle : min i (l.eraseP (fun h => h.id == gid)).length ≤
      (l.eraseP (fun h => h.id == gid)).length := Nat.min_le_right _ _
  rw [listMoveGroup_eq l gid i g hfind]
  rw [listMoveGroup_eq l gid j g hfind]
  unfold listMoveGroup
  rw [find?_insertIdx_of_no_match _ g hpg _ _ hkle hno]
  rw [eraseP_insertIdx_of_no_match _ g hpg _ _ hkle hno]

/-- Moving a group to its own current position is a no-op. -/
theorem listMoveGroup_self (l : List BlockGroup) (gid : Nat) :
    ∀ {p : Nat}, listFindIdx (fun g => g.id == gid) l = some p →
      listMoveGroup l gid p = l := by
  induction l with
  | nil => intro p hp; simp [listFindIdx] at hp
  | cons h tl ih =>
    intro p hp
    by_cases hh : (h.id == gid) = true
    · simp [listFindIdx, hh] at hp
      subst hp
      unfold listMoveGroup
      rw [List.find?_cons]
      simp only [hh]
      rw [List.eraseP_cons_of_pos (by exact hh)]
      simp [List.insertIdx_zero]
    · have hhf : (h.id == gid) = false := by simpa using hh
      simp [listFindIdx, hh] at hp
      obtain ⟨q, hq, rfl⟩ := hp
      have hfind : (tl.find? (fun g => g.id == gid)).isSome := by
        rw [List.find?_isSome]
        obtain ⟨a, ha, hpa⟩ := listFindIdx_getElem _ hq
        exact ⟨a, List.getElem?_mem ha, hpa⟩
      obtain ⟨g, hg⟩ := Option.isSome_iff_exists.mp hfind
      have hih0 := ih hq
      unfold listMoveGroup at hih0
      rw [hg] at hih0
      have hih : List.insertIdx
          (min q (tl.eraseP (fun x => x.id == gid)).length) g
          (tl.eraseP (fun x => x.id == gid)) = tl := hih0
      unfold listMoveGroup
      rw [List.find?_cons]
      simp only [hhf, hg]
      rw [List.eraseP_cons_of_neg (by exact hh)]
      show List.insertIdx
        (min (q + 1) ((h :: tl.eraseP (fun x => x.id == gid)).length)) g
        (h :: tl.eraseP (fun x => x.id == gid)) = h :: tl
      rw [List.length_cons, Nat.succ_min_succ, List.insertIdx_succ_cons]
      rw [hih]

/-! ### The published-view current tab -/

theorem find?_nonhidden_clearCurrent (ts : List Tab) :
    ((clearCurrent ts).find? (fun t => !t.isHiddenInPublished)).map Tab.blockId =
      (ts.find? (fun t => !t.isHiddenInPublished)).map Tab.blockId := by
  induction ts with
  | nil => rfl
  | cons t ts ih =>
    show ((({ t with isCurrent := false } : Tab) :: clearCurrent ts).find?
      (fun t => !t.isHiddenInPublished)).map Tab.blockId = _
    rw [List.find?_cons, List.find?_cons]
    by_cases hh : (!t.isHiddenInPublished) = true
    · simp only [hh]
      rfl
    · have hhf : (!t.isHiddenInPublished) = false := by simpa using hh
      simp only [hhf]
      exact ih

theorem find?_nonhidden_setCurrentIdx :
    ∀ (ts : List Tab) (j : Nat),
      ((setCurrentIdx ts j).find? (fun t => !t.isHiddenInPublished)).map
          Tab.blockId =
        (ts.find? (fun t => !t.isHiddenInPublished)).map Tab.blockId := by
  intro ts
  induction ts with
  | nil => intro j; rfl
  | cons t ts ih =>
    intro j
    cases j with
    | zero =>
      show ((({ t with isCurrent := true } : Tab) :: clearCurrent ts).find?
        (fun t => !t.isHiddenInPublished)).map Tab.blockId = _
      rw [List.find?_cons, List.find?_cons]
      by_cases hh : (!t.isHiddenInPublished) = true
      · simp only [hh]
        rfl
      · have hhf : (!t.isHiddenInPublished) = false := by simpa using hh
        simp only [hhf]
        exact find?_nonhidden_clearCurrent ts
    | succ j =>
      show ((({ t with isCurrent := false } : Tab) :: setCurrentIdx ts j).find?
        (fun t => !t.isHiddenInPublished)).map Tab.blockId = _
      rw [List.find?_cons, List.find?_cons]
      by_cases hh : (!t.isHiddenInPublished) = true
      · simp only [hh]
        rfl
      · have hhf : (!t.isHiddenInPublished) = false := by simpa using hh
        simp only [hhf]
        exact ih j

theorem find?_of_unique_match {α : Type} (p : α → Bool) :
    ∀ (l : List α) (t : α), l.countP p = 1 → t ∈ l → p t = true →
      l.find? p = some t := by
  intro l
  induction l with
  | nil => intro t _ hmem; simp at hmem
  | cons a as ih =>
    intro t hcount hmem hp
    by_cases hpa : p a = true
    · have hcz : as.countP p = 0 := by
        rw [List.countP_cons, hpa] at hcount
        simpa using hcount
      have hta : t = a := by
        rcases List.mem_cons.mp hmem with h | h
        · exact h
        · exact absurd hp (by
            have := List.countP_eq_zero.mp hcz t h
            simpa using this)
      rw [hta]
      exact List.find?_cons_of_pos _ hpa
    · have hmem2 : t ∈ as := by
        rcases List.mem_cons.mp hmem with h | h
        · exact absurd (h ▸ hp) hpa
        · exact h
      have hcount2 : as.countP p = 1 := by
        rw [List.countP_cons] at hcount
        simpa [hpa] using hcount
      rw [List.find?_cons_of_neg _ hpa]
      exact ih t hcount2 hmem2 hp

/-! ### The hide-all-tabs handler -/

theorem updateGroup_congr (l : List BlockGroup) (gid : Nat)
    (f f2 : BlockGroup → BlockGroup) (h : ∀ g, f g = f2 g) :
    updateGroup l gid f = updateGroup l gid f2 := by
  unfold updateGroup
  apply List.map_congr_left
  intro g _
  by_cases hg : g.id = gid <;> simp [hg, h g]

theorem updateGroup_comp (l : List BlockGroup) (gid : Nat)
    (f f2 : BlockGroup → BlockGroup) (hf : ∀ g, (f g).id = g.id) :
    updateGroup (updateGroup l gid f) gid f2 =
      updateGroup l gid (fun g => f2 (f g)) := by
  unfold updateGroup
  rw [List.map_map]
  apply List.map_congr_left
  intro g _
  by_cases hg : g.id = gid
  · simp [hg, hf g]
  · simp [hg]

theorem updateGroup_id (l : List BlockGroup) (gid : Nat) :
    updateGroup l gid (fun g => g) = l := by
  unfold updateGroup
  have : ∀ g ∈ l, (if (g.id == gid) = true then g else g) = g := by
    intro g _
    by_cases hg : (g.id == gid) = true <;> simp [hg]
  exact (List.map_congr_left this).trans (List.map_id' l)

theorem hide_fold_state : ∀ (ts : List Tab) (s : EditorState) (gid : Nat),
    ts.foldl
        (fun acc t =>
          if !t.isHiddenInPublished then
            toggleIsBlockHiddenInPublished acc gid t.blockId
          else acc)
        s =
      { s with layout := (updateGroup s.layout gid
          (fun g => ⟨g.id, hideFold ts g.tabs⟩)) } := by
  intro ts
  induction ts with
  | nil =>
    intro s gid
    rw [List.foldl_nil]
    have heq : updateGroup s.layout gid (fun g => ⟨g.id, hideFold [] g.tabs⟩) =
        s.layout := updateGroup_id s.layout gid
    rw [heq]
  | cons t ts ih =>
    intro s gid
    rw [List.foldl_cons]
    by_cases ht : t.isHiddenInPublished = true
    · rw [if_neg (by simp [ht])]
      rw [ih s gid]
      have heq : ∀ g : BlockGroup,
          (⟨g.id, hideFold ts g.tabs⟩ : BlockGroup) =
            ⟨g.id, hideFold (t :: ts) g.tabs⟩ := by
        intro g
        simp [hideFold, ht]
      rw [updateGroup_congr _ _ _ _ heq]
    · rw [if_pos (by simp [ht])]
      rw [ih (toggleIsBlockHiddenInPublished s gid t.blockId) gid]
      unfold toggleIsBlockHiddenInPublished
      simp only
      rw [updateGroup_comp s.layout gid
        (fun h0 => ⟨h0.id, toggleHiddenTab h0.tabs t.blockId⟩)
        (fun g => ⟨g.id, hideFold ts g.tabs⟩) (fun g0 => rfl)]
      have heq : ∀ g : BlockGroup,
          (⟨g.id, hideFold ts (toggleHiddenTab g.tabs t.blockId)⟩ : BlockGroup) =
            ⟨g.id, hideFold (t :: ts) g.tabs⟩ := by
        intro g
        simp [hideFold, ht]
      rw [updateGroup_congr _ _ _ _ heq]

theorem onHideAllTabs_none (s : EditorState) (gid : Nat)
    (hg : getBlockGroup s.layout gid = none) : onHideAllTabs s gid = s := by
  unfold onHideAllTabs
  split
  · rfl
  · simp_all

theorem onHideAllTabs_some (s : EditorState) (gid : Nat) (bg : BlockGroup)
    (hg : getBlockGroup s.layout gid = some bg) :
    onHideAllTabs s gid =
      bg.tabs.foldl
        (fun acc t =>
          if !t.isHiddenInPublished then
            toggleIsBlockHiddenInPublished acc gid t.blockId
          else acc)
        s := by
  unfold onHideAllTabs
  split
  · simp_all
  · rename_i bg2 heq
    rw [hg] at heq
    cases heq
    rfl

theorem toggleHiddenTab_no_match (ts : List Tab) (bid : Nat)
    (h : ∀ u ∈ ts, (u.blockId == bid) = false) :
    toggleHiddenTab ts bid = ts := by
  unfold toggleHiddenTab
  have : ∀ u ∈ ts,
      (if u.blockId == bid then
        { u with isHiddenInPublished := !u.isHiddenInPublished } else u) = u := by
    intro u hu
    rw [if_neg (by simp [h u hu])]
  exact (List.map_congr_left this).trans (List.map_id' ts)

theorem toggleHiddenTab_append (a b : List Tab) (bid : Nat) :
    toggleHiddenTab (a ++ b) bid =
      toggleHiddenTab a bid ++ toggleHiddenTab b bid := by
  unfold toggleHiddenTab
  rw [List.map_append]

theorem toggleHiddenTab_split (X ts : List Tab) (t : Tab)
    (hX : ∀ u ∈ X, (u.blockId == t.blockId) = false)
    (hts : ∀ u ∈ ts, (u.blockId == t.blockId) = false) :
    toggleHiddenTab (X ++ t :: ts) t.blockId =
      X ++ { t with isHiddenInPublished := !t.isHiddenInPublished } :: ts := by
  rw [toggleHiddenTab_append, toggleHiddenTab_no_match X t.blockId hX]
  have hcons : toggleHiddenTab (t :: ts) t.blockId =
      { t with isHiddenInPublished := !t.isHiddenInPublished } :: ts := by
    unfold toggleHiddenTab
    rw [List.map_cons]
    rw [if_pos (by simp)]
    have : ∀ u ∈ ts,
        (if u.blockId == t.blockId then
          { u with isHiddenInPublished := !u.isHiddenInPublished } else u) = u := by
      intro u hu
      rw [if_neg (by simp [hts u hu])]
    rw [List.map_congr_left this, List.map_id' ts]
  rw [hcons]

theorem hideFold_spec : ∀ (ts X : List Tab),
    (((X ++ ts).map Tab.blockId).Nodup) →
    hideFold ts (X ++ ts) = X ++ ts.map setHiddenTrue := by
  intro ts
  induction ts with
  | nil =>
    intro X _
    simp [hideFold]
  | cons t ts ih =>
    intro X hnd
    have hids : (X ++ t :: ts).map Tab.blockId =
        X.map Tab.blockId ++ t.blockId :: ts.map Tab.blockId := by
      rw [List.map_append, List.map_cons]
    rw [hids] at hnd
    have hmid := List.nodup_middle.mp hnd
    rw [List.nodup_cons] at hmid
    have hnotX : ∀ u ∈ X, (u.blockId == t.blockId) = false := by
      intro u hu
      simp only [beq_eq_false_iff_ne, ne_eq]
      intro hc
      exact hmid.1 (List.mem_append_left _ (hc ▸ List.mem_map_of_mem _ hu))
    have hnotTs : ∀ u ∈ ts, (u.blockId == t.blockId) = false := by
      intro u hu
      simp only [beq_eq_false_iff_ne, ne_eq]
      intro hc
      exact hmid.1 (List.mem_append_right _ (hc ▸ List.mem_map_of_mem _ hu))
    by_cases ht : t.isHiddenInPublished = true
    · have hstep : hideFold (t :: ts) (X ++ t :: ts) =
          hideFold ts (X ++ t :: ts) := by
        simp [hideFold, ht]
      rw [hstep]
      have hassoc : X ++ t :: ts = (X ++ [t]) ++ ts := by
        rw [List.append_assoc]
        rfl
      rw [hassoc]
      rw [ih (X ++ [t]) (by
        rw [← hassoc, hids]
        exact hnd)]
      rw [List.append_assoc, List.map_cons]
      have hset : setHiddenTrue t = t := by
        unfold setHiddenTrue
        rw [← ht]
      rw [hset]
      rfl
    · have htf : t.isHiddenInPublished = false := by simpa using ht
      have hstep : hideFold (t :: ts) (X ++ t :: ts) =
          hideFold ts (toggleHiddenTab (X ++ t :: ts) t.blockId) := by
        simp [hideFold, htf]
      rw [hstep]
      rw [toggleHiddenTab_split X ts t hnotX hnotTs]
      have hflip : ({ t with isHiddenInPublished := !t.isHiddenInPublished } : Tab) =
          setHiddenTrue t := by
        unfold setHiddenTrue
        rw [htf]
        rfl
      rw [hflip]
      have hassoc : X ++ setHiddenTrue t :: ts = (X ++ [setHiddenTrue t]) ++ ts := by
        rw [List.append_assoc]
        rfl
      rw [hassoc]
      rw [ih (X ++ [setHiddenTrue t]) (by
        have hsame : ((X ++ [setHiddenTrue t]) ++ ts).map Tab.blockId =
            X.map Tab.blockId ++ t.blockId :: ts.map Tab.blockId := by
          simp [setHiddenTrue]
        rw [hsame]
        exact hnd)]
      rw [List.append_assoc, List.map_cons]
      rfl

theorem hide_fold_skip (gid : Nat) :
    ∀ (ts : List Tab) (s : EditorState),
      (∀ t ∈ ts, t.isHiddenInPublished = true) →
      ts.foldl
          (fun acc t =>
            if !t.isHiddenInPublished then
              toggleIsBlockHiddenInPublished acc gid t.blockId
            else acc)
          s = s := by
  intro ts
  induction ts with
  | nil => intro s _; rfl
  | cons t ts ih =>
    intro s hall
    rw [List.foldl_cons, if_neg (by simp [hall t (by simp)])]
    exact ih s (fun u hu => hall u (by simp [hu]))

theorem updateGroup_congr_unique (l : List BlockGroup) (gid : Nat)
    (f f2 : BlockGroup → BlockGroup) (g : BlockGroup)
    (hnd : (groupIds l).Nodup) (hg : getBlockGroup l gid = some g)
    (heq : f g = f2 g) : updateGroup l gid f = updateGroup l gid f2 := by
  induction l with
  | nil => rfl
  | cons h hs ih =>
    unfold getBlockGroup at hg
    rw [List.find?_cons] at hg
    unfold updateGroup
    simp only [List.map_cons]
    by_cases hh : (h.id == gid) = true
    · rw [hh] at hg
      simp only at hg
      injection hg with hg
      subst hg
      rw [if_pos hh, if_pos hh, heq]
      have hid : h.id = gid := by simpa using hh
      have hnot : gid ∉ groupIds hs := by
        have hcons : groupIds (h :: hs) = h.id :: groupIds hs := rfl
        rw [hcons, List.nodup_cons] at hnd
        rw [← hid]
        exact hnd.1
      have e1 := updateGroup_of_not_mem hs gid f hnot
      have e2 := updateGroup_of_not_mem hs gid f2 hnot
      unfold updateGroup at e1 e2
      rw [e1, e2]
    · have hhf : (h.id == gid) = false := by simpa using hh
      rw [hhf] at hg
      simp only at hg
      rw [if_neg (by simp [hhf]), if_neg (by simp [hhf])]
      have hnd2 : (groupIds hs).Nodup := by
        have hcons : groupIds (h :: hs) = h.id :: groupIds hs := rfl
        rw [hcons, List.nodup_cons] at hnd
        exact hnd.2
      have := ih hnd2 hg
      unfold updateGroup at this
      rw [this]

/-! ### Duplication round trip -/

theorem duplicateBlockGroup_eq (s : EditorState) (gid : Nat) (i : Nat)
    (g : BlockGroup)
    (hfi : listFindIdx (fun h => h.id == gid) s.layout = some i)
    (hget : s.layout[i]? = some g) :
    duplicateBlockGroup s gid =
      { layout := s.layout.insertIdx (i + 1)
          ⟨s.nextId + g.tabs.length, copyTabsFrom g.tabs s.nextId⟩
        blocks := copyBlocksFrom s.blocks g.tabs s.nextId ++ s.blocks
        nextId := s.nextId + g.tabs.length + 1 } := by
  unfold duplicateBlockGroup
  split
  · simp_all
  · split
    · simp_all
    · rename_i xo iv hfi2 xb gv hget2
      rw [hfi] at hfi2
      cases hfi2
      rw [hget] at hget2
      cases hget2
      rfl

theorem copyTabsFrom_id_lb : ∀ (ts : List Tab) (n b : Nat),
    b ∈ (copyTabsFrom ts n).map Tab.blockId → n ≤ b := by
  intro ts
  induction ts with
  | nil => intro n b hb; simp [copyTabsFrom] at hb
  | cons t ts ih =>
    intro n b hb
    have hcons : (copyTabsFrom (t :: ts) n).map Tab.blockId =
        n :: (copyTabsFrom ts (n + 1)).map Tab.blockId := rfl
    rw [hcons] at hb
    rcases List.mem_cons.mp hb with hb2 | hb2
    · omega
    · have := ih (n + 1) b hb2
      omega

theorem copyBlocksFrom_mem_tabIds (st : List (Nat × Block)) :
    ∀ (ts : List Tab) (n : Nat) (p : Nat × Block),
      p ∈ copyBlocksFrom st ts n →
      p.1 ∈ (copyTabsFrom ts n).map Tab.blockId := by
  intro ts
  induction ts with
  | nil => intro n p hp; simp [copyBlocksFrom] at hp
  | cons t ts ih =>
    intro n p hp
    unfold copyBlocksFrom at hp
    have hcons : (copyTabsFrom (t :: ts) n).map Tab.blockId =
        n :: (copyTabsFrom ts (n + 1)).map Tab.blockId := rfl
    rw [hcons]
    rcases List.mem_append.mp hp with hp2 | hp2
    · cases hst : storeGet st t.blockId with
      | none => rw [hst] at hp2; simp at hp2
      | some b =>
        rw [hst] at hp2
        simp at hp2
        subst hp2
        exact List.mem_cons_self _ _
    · exact List.mem_cons_of_mem _ (ih (n + 1) p hp2)

theorem copyBlocksFrom_lookup (st : List (Nat × Block)) :
    ∀ (ts : List Tab) (n k : Nat) (t : Tab), ts[k]? = some t →
      (copyBlocksFrom st ts n).find? (fun p => p.1 == n + k) =
        (storeGet st t.blockId).map (fun b => (n + k, b)) := by
  intro ts
  induction ts with
  | nil => intro n k t ht; simp at ht
  | cons u ts ih =>
    intro n k t ht
    have hbound : ∀ p ∈ copyBlocksFrom st ts (n + 1), n + 1 ≤ p.1 := by
      intro p hp
      exact copyTabsFrom_id_lb ts (n + 1) p.1
        (copyBlocksFrom_mem_tabIds st ts (n + 1) p hp)
    cases k with
    | zero =>
      simp only [List.getElem?_cons_zero] at ht
      obtain rfl : u = t := by simpa using ht
      cases hst : storeGet st u.blockId with
      | none =>
        show (copyBlocksFrom st (u :: ts) n).find?
          (fun p => p.1 == n + 0) = Option.map (fun b => (n + 0, b)) none
        unfold copyBlocksFrom
        rw [hst, List.nil_append]
        rw [List.find?_eq_none.mpr (fun p hp => by
          have := hbound p hp
          simp only [beq_iff_eq]
          omega)]
        rfl
      | some b =>
        show (copyBlocksFrom st (u :: ts) n).find?
          (fun p => p.1 == n + 0) = Option.map (fun b => (n + 0, b)) (some b)
        unfold copyBlocksFrom
        rw [hst, List.singleton_append]
        rw [List.find?_cons_of_pos _ (by simp)]
        rfl
    | succ k =>
      simp only [List.getElem?_cons_succ] at ht
      have harith : n + 1 + k = n + (k + 1) := by omega
      have hrec := ih (n + 1) k t ht
      rw [harith] at hrec
      unfold copyBlocksFrom
      cases hst : storeGet st u.blockId with
      | none =>
        rw [List.nil_append]
        exact hrec
      | some b =>
        rw [List.singleton_append]
        rw [List.find?_cons_of_neg _ (by
          show ¬((n, b).1 == n + (k + 1)) = true
          simp only [beq_iff_eq]
          omega)]
        exact hrec

theorem filter_insertIdx_restore {α : Type} (q : α → Bool) (a : α)
    (hqa : q a = false) :
    ∀ (l : List α) (k : Nat), k ≤ l.length → (∀ x ∈ l, q x = true) →
      (l.insertIdx k a).filter q = l := by
  intro l
  induction l with
  | nil =>
    intro k hk _
    have hk0 : k = 0 := by simpa using hk
    subst hk0
    rw [List.insertIdx_zero]
    simp [List.filter_cons, hqa]
  | cons x xs ih =>
    intro k hk hall
    cases k with
    | zero =>
      rw [List.insertIdx_zero]
      rw [List.filter_cons_of_neg (by simp [hqa])]
      rw [List.filter_eq_self.mpr hall]
    | succ k =>
      rw [List.insertIdx_succ_cons]
      rw [List.filter_cons_of_pos (hall x (by simp))]
      rw [ih k (by simpa using hk) (fun y hy => hall y (by simp [hy]))]

theorem deleteBlocks_restore (A B : List (Nat × Block)) (bids : List Nat)
    (hA : ∀ p ∈ A, p.1 ∈ bids) (hB : ∀ p ∈ B, p.1 ∉ bids) :
    deleteBlocks (A ++ B) bids = B := by
  unfold deleteBlocks
  rw [List.filter_append]
  have hAnil : A.filter (fun p => !bids.contains p.1) = [] := by
    rw [List.filter_eq_nil_iff]
    intro p hp
    simp only [Bool.not_eq_true', Bool.not_eq_false]
    exact List.elem_eq_true_of_mem (hA p hp)
  have hBself : B.filter (fun p => !bids.contains p.1) = B := by
    rw [List.filter_eq_self]
    intro p hp
    simp only [Bool.not_eq_true']
    by_cases hc : bids.contains p.1 = true
    · exact absurd (List.mem_of_elem_eq_true hc) (hB p hp)
    · simpa using hc
  rw [hAnil, hBself, List.nil_append]

/-! ### Claim theorems -/

/-- C1: for every group identifier, `removeBlockGroup` (and, scoped to one
tab, `removeBlock`) with `force = false` returns a result tagged
dashboard-conflict carrying the conflicting references and leaves the Layout
Store and Block Store completely unchanged whenever some dashboard references
an affected block; otherwise it returns a result tagged success and performs
the removal; calling with `force = true` always removes regardless of
conflicts. -/
theorem claim_C1_two_phase_removal :
    (∀ (dash : Nat → Bool) (s : EditorState) (gid : Nat) (g : BlockGroup),
        getBlockGroup s.layout gid = some g →
        findConflicts dash (tabIds g) ≠ [] →
        removeBlockGroup dash s gid false =
          (.dashboardConflict (findConflicts dash (tabIds g)), s)) ∧
    (∀ (dash : Nat → Bool) (s : EditorState) (gid : Nat) (g : BlockGroup),
        getBlockGroup s.layout gid = some g →
        findConflicts dash (tabIds g) = [] →
        removeBlockGroup dash s gid false =
          (.success,
            { s with
              layout := s.layout.filter (fun h => h.id != gid)
              blocks := deleteBlocks s.blocks (tabIds g) })) ∧
    (∀ (dash : Nat → Bool) (s : EditorState) (gid : Nat) (g : BlockGroup),
        getBlockGroup s.layout gid = some g →
        removeBlockGroup dash s gid true =
          (.success,
            { s with
              layout := s.layout.filter (fun h => h.id != gid)
              blocks := deleteBlocks s.blocks (tabIds g) }) ∧
        gid ∉ groupIds (removeBlockGroup dash s gid true).2.layout) ∧
    (∀ (dash : Nat → Bool) (s : EditorState) (gid bid : Nat) (g : BlockGroup)
        (a : Tab),
        getBlockGroup s.layout gid = some g →
        g.tabs.find? (fun t => t.blockId == bid) = some a →
        dash bid = true →
        removeBlock dash s gid bid false = (.dashboardConflict [bid], s)) ∧
    (∀ (dash : Nat → Bool) (s : EditorState) (gid bid : Nat) (g : BlockGroup)
        (a : Tab) (force : Bool),
        getBlockGroup s.layout gid = some g →
        g.tabs.find? (fun t => t.blockId == bid) = some a →
        (force = true ∨ dash bid = false) →
        removeBlock dash s gid bid force =
          (.success,
            { s with
              layout := dropEmptyGroups (updateGroup s.layout gid
                (fun h => ⟨h.id, removeTabFall h.tabs bid⟩))
              blocks := deleteBlocks s.blocks [bid] })) := by
  refine ⟨removeBlockGroup_conflict, ?_, ?_, removeBlock_conflict, ?_⟩
  · intro dash s gid g hg hc
    exact removeBlockGroup_removes dash s gid false g hg (Or.inr hc)
  · intro dash s gid g hg
    refine ⟨removeBlockGroup_removes dash s gid true g hg (Or.inl rfl), ?_⟩
    rw [removeBlockGroup_removes dash s gid true g hg (Or.inl rfl)]
    exact groupIds_filter_ne s.layout gid
  · intro dash s gid bid g a force hg ha hfc
    exact removeBlock_removes dash s gid bid force g a hg ha hfc

theorem claim_C1_witness :
    removeBlockGroup (fun b => b == 1) witState 10 false =
      (.dashboardConflict [1], witState) ∧
    removeBlockGroup (fun b => b == 1) witState 10 true =
      (.success,
        { witState with
          layout := witState.layout.filter (fun h => h.id != 10)
          blocks := deleteBlocks witState.blocks (tabIds ⟨10,
            [⟨1, false, false⟩, ⟨2, true, false⟩]⟩) }) ∧
    removeBlock (fun b => b == 2) witState 10 2 false =
      (.dashboardConflict [2], witState) := by
  refine ⟨?_, ?_, ?_⟩
  · exact claim_C1_two_phase_removal.1 (fun b => b == 1) witState 10
      ⟨10, [⟨1, false, false⟩, ⟨2, true, false⟩]⟩ (by decide) (by decide)
  · exact (claim_C1_two_phase_removal.2.2.1 (fun b => b == 1) witState 10
      ⟨10, [⟨1, false, false⟩, ⟨2, true, false⟩]⟩ (by decide)).1
  · exact claim_C1_two_phase_removal.2.2.2.1 (fun b => b == 2) witState 10 2
      ⟨10, [⟨1, false, false⟩, ⟨2, true, false⟩]⟩ ⟨2, true, false⟩
      (by decide) (by decide) (by decide)

/-- C2: after every operation of the structural operation set, every
non-empty block group has exactly one tab marked current (indeed every group
in the layout stays non-empty with a unique current tab); and when the
current tab at position `i` of a group with at least two tabs is removed,
currency deterministically passes to position `i - 1` of the remaining
sequence: the tab that was immediately before it, or the new first tab when
no such tab exists. -/
theorem claim_C2_current_tab_invariant :
    (∀ (dash : Nat → Bool) (op : Op) (s : EditorState), LOK s.layout →
        LOK ((applyOp dash op s).layout)) ∧
    (∀ (dash : Nat → Bool) (s : EditorState) (gid bid : Nat) (g : BlockGroup)
        (i : Nat) (t : Tab),
        getBlockGroup s.layout gid = some g →
        listFindIdx (fun u => u.blockId == bid) g.tabs = some i →
        g.tabs[i]? = some t → t.isCurrent = true → 2 ≤ g.tabs.length →
        dash bid = false →
        getBlockGroup ((removeBlock dash s gid bid false).2).layout gid =
          some ⟨g.id, setCurrentIdx (g.tabs.eraseIdx i) (i - 1)⟩) :=
  ⟨LOK_applyOp, removeBlock_currency_fall⟩

theorem claim_C2_witness :
    LOK ((applyOp (fun _ => false) (.switchActiveTab 10 1) witState).layout) ∧
    getBlockGroup
        ((removeBlock (fun _ => false) witState 10 2 false).2).layout 10 =
      some ⟨10, setCurrentIdx
        ([⟨1, false, false⟩, ⟨2, true, false⟩].eraseIdx 1) 0⟩ := by
  constructor
  · exact claim_C2_current_tab_invariant.1 (fun _ => false)
      (.switchActiveTab 10 1) witState (by decide)
  · exact claim_C2_current_tab_invariant.2 (fun _ => false) witState 10 2
      ⟨10, [⟨1, false, false⟩, ⟨2, true, false⟩]⟩ 1 ⟨2, true, false⟩
      (by decide) (by decide) (by decide) (by decide) (by decide) (by decide)

/-- C3: for every sequence of `addBlockGroup`, `addGroupedBlock`,
`removeBlock` and `removeBlockGroup` calls starting from a valid state,
after each call (that is, after every prefix of the sequence) every block
identifier appears in at most one tab slot across the entire layout: the
flattened list of block identifiers is duplicate-free. -/
theorem claim_C3_unique_membership (dash : Nat → Bool) (ops : List Op)
    (s : EditorState) (hops : ∀ op ∈ ops, isBasicStructOp op = true)
    (hs : IdsOK s) :
    ∀ pre suf : List Op, ops = pre ++ suf →
      (allBlockIds (applyOps dash pre s).layout).Nodup := by
  intro pre suf heq
  have hpre : ∀ op ∈ pre, isBasicStructOp op = true := by
    intro op hop
    exact hops op (by rw [heq]; exact List.mem_append_left _ hop)
  exact (IdsOK_applyOps_basic dash pre s hpre hs).1

/-- C5: `updateOrder(groupId, targetIndex)` removes the group from its
current position and reinserts it at `targetIndex` interpreted against the
sequence after removal (clamped to its length); and `updateOrder(groupId, i)`
followed by `updateOrder(groupId, j)` yields the same sequence as the single
move of the group to `j` computed against the original sequence with the
group removed. -/
theorem claim_C5_update_order_move :
    (∀ (s : EditorState) (gid i : Nat) (g : BlockGroup),
        getBlockGroup s.layout gid = some g →
        updateOrder s gid i =
          { s with layout :=
              ((s.layout.eraseP (fun h => h.id == gid)).insertIdx
                (min i (s.layout.eraseP (fun h => h.id == gid)).length) g) }) ∧
    (∀ (s : EditorState) (gid i j : Nat),
        (groupIds s.layout).Nodup → gid ∈ groupIds s.layout →
        updateOrder (updateOrder s gid i) gid j = updateOrder s gid j) := by
  constructor
  · intro s gid i g hg
    unfold updateOrder
    rw [listMoveGroup_eq s.layout gid i g hg]
  · intro s gid i j hnd hmem
    unfold updateOrder
    simp only
    rw [listMoveGroup_listMoveGroup s.layout gid i j hnd hmem]

theorem claim_C5_witness :
    updateOrder (updateOrder witState 10 1) 10 0 = updateOrder witState 10 0 ∧
    updateOrder witState 10 1 =
      { witState with layout :=
          ((witState.layout.eraseP (fun h => h.id == 10)).insertIdx
            (min 1 (witState.layout.eraseP (fun h => h.id == 10)).length)
            ⟨10, [⟨1, false, false⟩, ⟨2, true, false⟩]⟩) } :=
  ⟨claim_C5_update_order_move.2 witState 10 1 0 (by decide) (by decide),
   claim_C5_update_order_move.1 witState 10 1
     ⟨10, [⟨1, false, false⟩, ⟨2, true, false⟩]⟩ (by decide)⟩

theorem claim_C3_witness :
    (allBlockIds (applyOps (fun _ => false)
      [Op.addBlockGroup ⟨.python, 3⟩ 0, Op.addGroupedBlock 10 1 ⟨.sql, 4⟩ .after]
      witState).layout).Nodup :=
  claim_C3_unique_membership (fun _ => false)
    [Op.addBlockGroup ⟨.python, 3⟩ 0, Op.addGroupedBlock 10 1 ⟨.sql, 4⟩ .after,
     Op.removeBlock 10 2 false]
    witState (by decide) (by decide)
    [Op.addBlockGroup ⟨.python, 3⟩ 0, Op.addGroupedBlock 10 1 ⟨.sql, 4⟩ .after]
    [Op.removeBlock 10 2 false] rfl

/-- C9: requesting the editor to add a block of type `DashboardHeader` is a
complete no-op: `onAddBlock` and `onAddGroupedBlock` fall through their
block-type switch without creating any block or group, leaving the whole
editor state (Layout Store and Block Store) unchanged, even though
dashboard-header is a member of the closed block-type set. -/
theorem claim_C9_dashboard_header_noop :
    ∀ (s : EditorState) (index gid bid : Nat) (pos : TabPos),
      onAddBlock s .dashboardHeader index = s ∧
      onAddGroupedBlock s .dashboardHeader gid bid pos = s :=
  fun _ _ _ _ _ => ⟨rfl, rfl⟩

/-- C4 as stated by the spec is FALSE of the source: the hidden-in-published
toggle handler `onToggleIsBlockHiddenInPublished` (lines 583-595) performs
its engine mutation with no `yDoc.transact` wrapper, so not every mutating
entry point runs inside an explicit transaction boundary. -/
theorem claim_C4_counterexample :
    ¬ (bareMutations (entrySteps .onToggleIsBlockHiddenInPublished) = []) := by
  decide

/-- C4 (amended): every mutating entry point of the editor wraps its engine
mutations in a single `yDoc.transact` boundary, except
`onToggleIsBlockHiddenInPublished` and the two file-upload usage callbacks,
which invoke their engine mutation outside any explicit transaction. -/
theorem claim_C4_transaction_boundaries :
    ∀ e : EntryPoint,
      e ≠ .onToggleIsBlockHiddenInPublished →
      e ≠ .onFileUploadBlockPythonUsage →
      e ≠ .onFileUploadBlockQueryUsage →
      bareMutations (entrySteps e) = [] := by
  intro e h1 h2 h3
  cases e
  case onToggleIsBlockHiddenInPublished => exact absurd rfl h1
  case onFileUploadBlockPythonUsage => exact absurd rfl h2
  case onFileUploadBlockQueryUsage => exact absurd rfl h3
  all_goals rfl

theorem claim_C4_witness :
    EntryPoint.onSwitchActiveTab ≠ .onToggleIsBlockHiddenInPublished ∧
    bareMutations (entrySteps .onSwitchActiveTab) = [] :=
  ⟨by decide,
   claim_C4_transaction_boundaries .onSwitchActiveTab (by decide) (by decide)
     (by decide)⟩

/-- C6: the drop-eligibility and reorder pre-checks never mutate the editor
state — running any sequence of pre-check calls threads the state through
unchanged — and each answers whether the corresponding drop would produce a
valid net structural change: in particular a drop of a block group onto its
own current position is rejected, a tab reorder onto the identical tab is
rejected, and a drop of unknown element type is rejected. -/
theorem claim_C6_pure_prechecks :
    (∀ (calls : List CheckCall) (s : EditorState), runChecks calls s = s) ∧
    (∀ (l : List BlockGroup) (gid p : Nat),
        listFindIdx (fun g => g.id == gid) l = some p →
        checkCanDropBlockGroup l gid p = false) ∧
    (∀ (l : List BlockGroup) (srcGid bid : Nat) (side : TabSide),
        canReorderTab l srcGid bid bid side = false) ∧
    (∀ (l : List BlockGroup) (gid index : Nat),
        onCheckCanDrop l gid index none = false) := by
  refine ⟨?_, ?_, ?_, ?_⟩
  · intro calls
    induction calls with
    | nil => intro s; rfl
    | cons c cs ih =>
      intro s
      unfold runChecks at ih ⊢
      rw [List.foldl_cons]
      have hstep : (runCheck c s).1 = s := by cases c <;> rfl
      rw [hstep]
      exact ih s
  · intro l gid p hfi
    unfold checkCanDropBlockGroup
    rw [listMoveGroup_self l gid hfi]
    simp
  · intro l srcGid bid side
    unfold canReorderTab
    simp
  · intro l gid index
    rfl

theorem claim_C6_witness :
    runChecks [.dropCheck 10 0 (some .blockGroup), .reorderCheck 10 1 2 .left]
      witState = witState ∧
    checkCanDropBlockGroup witState.layout 10 0 = false :=
  ⟨claim_C6_pure_prechecks.1
     [.dropCheck 10 0 (some .blockGroup), .reorderCheck 10 1 2 .left] witState,
   claim_C6_pure_prechecks.2.1 witState.layout 10 0 (by decide)⟩

/-- C8: in the published view (`isPublishedView = true`), `getCurrentTabId`
returns the identifier of the first non-hidden tab of the group — it is
entirely insensitive to where the persisted current-tab marker sits, so it
ignores a hidden tab holding the marker; with `isPublishedView = false` it
returns the tab holding the persisted current-tab marker. -/
theorem claim_C8_get_current_tab_id :
    (∀ (s : EditorState) (gid bid : Nat),
        getCurrentTabId ((switchActiveTab s gid bid).layout) gid true =
          getCurrentTabId s.layout gid true) ∧
    (∀ (l : List BlockGroup) (gid : Nat) (g : BlockGroup),
        getBlockGroup l gid = some g →
        getCurrentTabId l gid true =
          (g.tabs.find? (fun t => !t.isHiddenInPublished)).map Tab.blockId) ∧
    (∀ (l : List BlockGroup) (gid : Nat) (g : BlockGroup) (t : Tab),
        getBlockGroup l gid = some g → t ∈ g.tabs → t.isCurrent = true →
        g.tabs.countP (fun u => u.isCurrent) = 1 →
        getCurrentTabId l gid false = some t.blockId) := by
  refine ⟨?_, ?_, ?_⟩
  · intro s gid bid
    unfold switchActiveTab getCurrentTabId
    simp only
    rw [getBlockGroup_updateGroup s.layout gid _ (fun g0 => by
      cases listFindIdx (fun t => t.blockId == bid) g0.tabs <;> rfl)]
    cases hg : getBlockGroup s.layout gid with
    | none => rfl
    | some g =>
      simp only [Option.map, if_pos rfl]
      cases hfi : listFindIdx (fun t => t.blockId == bid) g.tabs with
      | none => rfl
      | some i =>
        show ((setCurrentIdx g.tabs i).find?
            (fun t => !t.isHiddenInPublished)).map Tab.blockId = _
        exact find?_nonhidden_setCurrentIdx g.tabs i
  · intro l gid g hg
    unfold getCurrentTabId
    rw [hg]
    rfl
  · intro l gid g t hg hmem hcur hcount
    unfold getCurrentTabId
    rw [hg]
    simp only [Bool.false_eq_true, if_false]
    rw [find?_of_unique_match _ g.tabs t hcount hmem hcur]
    rfl

theorem claim_C8_witness :
    getCurrentTabId
        ([⟨10, [⟨1, false, false⟩, ⟨2, true, true⟩]⟩] : List BlockGroup)
        10 true = some 1 ∧
    getCurrentTabId
        ([⟨10, [⟨1, false, false⟩, ⟨2, true, true⟩]⟩] : List BlockGroup)
        10 false = some 2 := by
  constructor
  · rw [claim_C8_get_current_tab_id.2.1
      [⟨10, [⟨1, false, false⟩, ⟨2, true, true⟩]⟩] 10
      ⟨10, [⟨1, false, false⟩, ⟨2, true, true⟩]⟩ (by decide)]
    decide
  · exact claim_C8_get_current_tab_id.2.2
      [⟨10, [⟨1, false, false⟩, ⟨2, true, true⟩]⟩] 10
      ⟨10, [⟨1, false, false⟩, ⟨2, true, true⟩]⟩ ⟨2, true, true⟩
      (by decide) (by decide) (by decide) (by decide)

/-- C10: for an existing group, `onHideAllTabs` sets the hidden-in-published
flag of every tab of that group to true — it toggles exactly the tabs that
were not already hidden, and `setHiddenTrue` leaves already-hidden tabs
untouched — so a second call on the resulting state changes nothing
(idempotence); when the group identifier does not exist the call changes
nothing. -/
theorem claim_C10_hide_all_tabs :
    (∀ (s : EditorState) (gid : Nat) (bg : BlockGroup),
        getBlockGroup s.layout gid = some bg →
        (groupIds s.layout).Nodup →
        ((bg.tabs.map Tab.blockId).Nodup) →
        onHideAllTabs s gid =
          { s with layout := (updateGroup s.layout gid
              (fun g => ⟨g.id, bg.tabs.map setHiddenTrue⟩)) } ∧
        onHideAllTabs (onHideAllTabs s gid) gid = onHideAllTabs s gid) ∧
    (∀ (s : EditorState) (gid : Nat),
        getBlockGroup s.layout gid = none → onHideAllTabs s gid = s) ∧
    (∀ t : Tab, t.isHiddenInPublished = true → setHiddenTrue t = t) := by
  refine ⟨?_, onHideAllTabs_none, ?_⟩
  · intro s gid bg hg hnd hndt
    have h1 : onHideAllTabs s gid =
        { s with layout := (updateGroup s.layout gid
            (fun g => ⟨g.id, hideFold bg.tabs g.tabs⟩)) } := by
      rw [onHideAllTabs_some s gid bg hg]
      exact hide_fold_state bg.tabs s gid
    have hfu : (fun g => (⟨g.id, hideFold bg.tabs g.tabs⟩ : BlockGroup)) bg =
        (fun g => (⟨g.id, bg.tabs.map setHiddenTrue⟩ : BlockGroup)) bg := by
      simp only
      have hspec := hideFold_spec bg.tabs [] (by simpa using hndt)
      rw [List.nil_append] at hspec
      rw [hspec]
      rfl
    have hmain : onHideAllTabs s gid =
        { s with layout := (updateGroup s.layout gid
            (fun g => ⟨g.id, bg.tabs.map setHiddenTrue⟩)) } := by
      rw [h1, updateGroup_congr_unique s.layout gid
        (fun g => ⟨g.id, hideFold bg.tabs g.tabs⟩)
        (fun g => ⟨g.id, bg.tabs.map setHiddenTrue⟩) bg hnd hg hfu]
    refine ⟨hmain, ?_⟩
    have hg2 : getBlockGroup (onHideAllTabs s gid).layout gid =
        some ⟨bg.id, bg.tabs.map setHiddenTrue⟩ := by
      rw [hmain]
      show getBlockGroup (updateGroup s.layout gid
        (fun g => ⟨g.id, bg.tabs.map setHiddenTrue⟩)) gid = _
      rw [getBlockGroup_updateGroup s.layout gid
        (fun g => ⟨g.id, bg.tabs.map setHiddenTrue⟩) (fun g0 => rfl), hg]
      rfl
    rw [onHideAllTabs_some _ gid _ hg2]
    apply hide_fold_skip
    intro t ht
    obtain ⟨u, _, rfl⟩ := List.mem_map.mp ht
    rfl
  · intro t ht
    unfold setHiddenTrue
    rw [← ht]

theorem claim_C10_witness :
    onHideAllTabs witState 10 =
      { witState with layout := (updateGroup witState.layout 10
          (fun g => ⟨g.id,
            [⟨1, false, false⟩, ⟨2, true, false⟩].map setHiddenTrue⟩)) } ∧
    onHideAllTabs (onHideAllTabs witState 10) 10 = onHideAllTabs witState 10 :=
  claim_C10_hide_all_tabs.1 witState 10
    ⟨10, [⟨1, false, false⟩, ⟨2, true, false⟩]⟩
    (by decide) (by decide) (by decide)

/-- C7: `duplicateBlockGroup` deep-copies every tab's block under fresh
consecutive identifiers with identical payloads into a new group inserted
immediately after the source group; and removing that duplicate group
restores the Layout sequence and the Block Store exactly (content-equal,
only the fresh-identifier counter has advanced). -/
theorem claim_C7_duplicate_round_trip (dash : Nat → Bool) (s : EditorState)
    (gid i : Nat) (g : BlockGroup)
    (hfi : listFindIdx (fun h => h.id == gid) s.layout = some i)
    (hget : s.layout[i]? = some g)
    (hfg : ∀ gi2 ∈ groupIds s.layout, gi2 < s.nextId)
    (hfs : ∀ p ∈ s.blocks, p.1 < s.nextId) :
    (duplicateBlockGroup s gid).layout =
      s.layout.insertIdx (i + 1)
        ⟨s.nextId + g.tabs.length, copyTabsFrom g.tabs s.nextId⟩ ∧
    (∀ (k : Nat) (t : Tab), g.tabs[k]? = some t →
      storeGet (duplicateBlockGroup s gid).blocks (s.nextId + k) =
        storeGet s.blocks t.blockId) ∧
    removeBlockGroup dash (duplicateBlockGroup s gid)
        (s.nextId + g.tabs.length) true =
      (.success, ⟨s.layout, s.blocks, s.nextId + g.tabs.length + 1⟩) := by
  have heq := duplicateBlockGroup_eq s gid i g hfi hget
  have hi := listFindIdx_lt_length _ hfi
  refine ⟨?_, ?_, ?_⟩
  · rw [heq]
  · intro k t ht
    rw [heq]
    show ((copyBlocksFrom s.blocks g.tabs s.nextId ++ s.blocks).find?
        (fun p => p.1 == s.nextId + k)).map Prod.snd =
      storeGet s.blocks t.blockId
    rw [List.find?_append]
    rw [copyBlocksFrom_lookup s.blocks g.tabs s.nextId k t ht]
    cases hsg : storeGet s.blocks t.blockId with
    | some b => rfl
    | none =>
      show ((Option.or none (s.blocks.find?
        (fun p => p.1 == s.nextId + k)))).map Prod.snd = none
      rw [List.find?_eq_none.mpr (fun p hp => by
        have := hfs p hp
        simp only [beq_iff_eq]
        omega)]
      rfl
  · have hnewg : getBlockGroup (duplicateBlockGroup s gid).layout
        (s.nextId + g.tabs.length) =
        some ⟨s.nextId + g.tabs.length, copyTabsFrom g.tabs s.nextId⟩ := by
      rw [heq]
      show (s.layout.insertIdx (i + 1)
          ⟨s.nextId + g.tabs.length, copyTabsFrom g.tabs s.nextId⟩).find?
          (fun h => h.id == s.nextId + g.tabs.length) =
        some ⟨s.nextId + g.tabs.length, copyTabsFrom g.tabs s.nextId⟩
      apply find?_insertIdx_of_no_match
      · simp
      · omega
      · intro x hx
        have := hfg x.id (List.mem_map_of_mem _ hx)
        simp only [beq_eq_false_iff_ne, ne_eq]
        omega
    rw [removeBlockGroup_removes dash (duplicateBlockGroup s gid)
      (s.nextId + g.tabs.length) true
      ⟨s.nextId + g.tabs.length, copyTabsFrom g.tabs s.nextId⟩ hnewg
      (Or.inl rfl)]
    have hlay : (duplicateBlockGroup s gid).layout.filter
        (fun h => h.id != s.nextId + g.tabs.length) = s.layout := by
      rw [heq]
      apply filter_insertIdx_restore
      · simp
      · omega
      · intro x hx
        have := hfg x.id (List.mem_map_of_mem _ hx)
        simp only [bne_iff_ne, ne_eq]
        omega
    have hblk : deleteBlocks (duplicateBlockGroup s gid).blocks
        (tabIds ⟨s.nextId + g.tabs.length, copyTabsFrom g.tabs s.nextId⟩) =
        s.blocks := by
      rw [heq]
      apply deleteBlocks_restore
      · intro p hp
        exact copyBlocksFrom_mem_tabIds s.blocks g.tabs s.nextId p hp
      · intro p hp hmem
        have h1 := hfs p hp
        have h2 := copyTabsFrom_id_lb g.tabs s.nextId p.1 hmem
        omega
    rw [hlay, hblk, heq]

theorem claim_C7_witness :
    removeBlockGroup (fun _ => false) (duplicateBlockGroup witState 10)
        102 true =
      (.success, ⟨witState.layout, witState.blocks, 103⟩) :=
  (claim_C7_duplicate_round_trip (fun _ => false) witState 10 0
    ⟨10, [⟨1, false, false⟩, ⟨2, true, false⟩]⟩
    (by decide) (by decide) (by decide) (by decide)).2.2

end Briefer
